import Mathlib

/-!
Verification of the non-threshold CGGMP21 distributed key generation driver
(`cggmp21-keygen/src/non_threshold.rs`).

The driver `run_keygen` is embedded as a pure function: all random draws are
passed in as a `LocalRand` record (mirroring the values the Rust code samples
from `rng`), and the messages collected by the rounds router are passed in as
an `Incoming` record.  The external capabilities (curve arithmetic, digest,
Schnorr proof-of-knowledge library) are a parameter record `Env`, as the spec
treats them as opaque interfaces.
-/

namespace Cggmp21

/-- Byte strings (each entry is one byte). -/
abbrev Bytes := List Nat

/-- Transport message identifier, used in blame lists as forensic evidence. -/
abbrev MsgId := Nat

/-- Message from round 1: the commitment `V_i` (a digest output). -/
structure MsgRound1 where
  commitment : Bytes
deriving DecidableEq

/-- Message from round 2: the decommitment `(rid_i, X_i, A_i, cc_i?, u_i)`. -/
structure MsgRound2 (Point SchCommit : Type) where
  rid : Bytes
  X : Point
  sch_commit : SchCommit
  chain_code : Option Bytes
  decommit : Bytes
deriving DecidableEq

/-- Message from round 3: the Schnorr proof `ψ_i`. -/
structure MsgRound3 (SchProof : Type) where
  sch_proof : SchProof
deriving DecidableEq

/-- Message parties exchange to ensure reliability of the broadcast channel. -/
structure MsgReliabilityCheck where
  hash : Bytes
deriving DecidableEq

/-- Message of the key generation protocol (the four wire variants). -/
inductive Msg (Point SchCommit SchProof : Type) where
  | Round1 (m : MsgRound1)
  | ReliabilityCheck (m : MsgReliabilityCheck)
  | Round2 (m : MsgRound2 Point SchCommit)
  | Round3 (m : MsgRound3 SchProof)
deriving DecidableEq

/-- Internal invariant violations (`Bug` in the keygen crate). -/
inductive Bug where
  | NoChainCode
  | ZeroPk
  | InvalidKeyShare
deriving DecidableEq

/-- Protocol aborts with attributed blame (`KeygenAborted`). -/
inductive KeygenAborted where
  | Round1NotReliable (parties : List (Nat × MsgId))
  | InvalidDecommitment (parties : List (Nat × MsgId))
  | MissingChainCode (parties : List (Nat × MsgId))
  | InvalidSchnorrProof (parties : List (Nat × MsgId))
deriving DecidableEq

/-- The blame list carried by a `KeygenAborted` variant. -/
def KeygenAborted.blamed : KeygenAborted → List (Nat × MsgId)
  | .Round1NotReliable l => l
  | .InvalidDecommitment l => l
  | .MissingChainCode l => l
  | .InvalidSchnorrProof l => l

/-- Key generation error (`KeygenError`): an abort with blame or an internal bug.
IO errors of the transport cannot arise in the pure embedding. -/
inductive KeygenError where
  | aborted (e : KeygenAborted)
  | bug (e : Bug)
deriving DecidableEq

/-- The key share assembled on success (`DirtyCoreKeyShare` with its
`DirtyKeyInfo`, flattened; `vss_setup` is always `None` here and omitted). -/
structure DirtyCoreKeyShare (Point Scalar : Type) where
  i : Nat
  shared_public_key : Point
  public_shares : List Point
  chain_code : Option Bytes
  x : Scalar
deriving DecidableEq

/-- Modelled from the spec: the round router's per-round mailbox (the
`round_based` simple store is external, spec section 4.3).  Before the round
completes it holds exactly one message per peer, keyed by sender index, in
ascending index order; each entry carries the transport message id. -/
structure RoundMsgs (M : Type) where
  msgs : List (Nat × MsgId × M)
deriving DecidableEq

/-- Insert the local party's entry into an index-keyed list, before the
first entry with a larger index. -/
def insertByIndex {M : Type} (i : Nat) (my : M) : List (Nat × M) → List (Nat × M)
  | [] => [(i, my)]
  | (j, m) :: rest =>
    if i < j then (i, my) :: (j, m) :: rest
    else (j, m) :: insertByIndex i my rest

/-- Modelled from the spec: `iter_including_me` of the external round router
(spec section 4.3) — an iterator yielding the peers' messages with the local
party's own message folded in, preserving insertion order by party index. -/
def RoundMsgs.iter_including_me {M : Type} (s : RoundMsgs M) (i : Nat) (my : M) :
    List M :=
  (insertByIndex i my (s.msgs.map fun t => (t.1, t.2.2))).map Prod.snd

/-- Modelled from the spec: `into_iter_indexed` of the external round router
(spec section 4.3) — yields `(j, msg_id, message_j)` for every peer. -/
def RoundMsgs.into_iter_indexed {M : Type} (s : RoundMsgs M) :
    List (Nat × MsgId × M) :=
  s.msgs

/-- Modelled from the spec: `utils::collect_blame` (utils.rs is not in src/,
spec section 4.4) — given two aligned per-party inputs and a predicate
`bad(j, a_j, b_j)`, returns the list of offending `(j, origin_msg_id)` in
index order, the message id taken from the message being checked. -/
def collect_blame {A B : Type} (a : RoundMsgs A) (b : RoundMsgs B)
    (bad : Nat → A → B → Bool) : List (Nat × MsgId) :=
  (a.msgs.zip b.msgs).filterMap fun p =>
    if bad p.1.1 p.1.2.2 p.2.2.2 then some (p.1.1, p.2.2.1) else none

/-- Modelled from the spec: `utils::collect_simple_blame` (utils.rs is not in
src/, spec section 4.4) — one per-party input and a unary predicate. -/
def collect_simple_blame {A : Type} (a : RoundMsgs A) (bad : A → Bool) :
    List (Nat × MsgId) :=
  a.msgs.filterMap fun t => if bad t.2.2 then some (t.1, t.2.1) else none

/-- Modelled from the spec: `utils::xor_array` (utils.rs is not in src/) —
bitwise XOR of two fixed-length byte arrays, element by element. -/
def xor_array (a b : Bytes) : Bytes :=
  List.zipWith Nat.xor a b

/-- The external capabilities consumed by the driver: digest constructions of
the transcript tagger, curve arithmetic and the Schnorr PoK library. -/
structure Env (Point Scalar SchSecret SchCommit SchProof : Type) where
  /-- `κ/8`, the byte length of `L::Rid`. -/
  ridLen : Nat
  /-- `udigest::hash` of the tagged `unambiguous::HashCom { sid, party_index, decommitment }`. -/
  hashCom : Bytes → Nat → MsgRound2 Point SchCommit → Bytes
  /-- `udigest::hash_iter` of the tagged `unambiguous::Echo { sid, commitment }` items. -/
  echoHash : Bytes → List MsgRound1 → Bytes
  /-- `Scalar::from_hash` of the tagged `unambiguous::SchnorrPok { sid, prover, rid }`. -/
  schChallenge : Bytes → Nat → Bytes → Scalar
  /-- `Point::generator() * x`. -/
  mulGen : Scalar → Point
  /-- `schnorr_pok::prove(secret, challenge, x)`. -/
  schProve : SchSecret → Scalar → Scalar → SchProof
  /-- `proof.verify(commit, challenge, public)` — `true` means the proof is accepted. -/
  schVerify : SchProof → SchCommit → Scalar → Point → Bool

/-- The values the driver draws from its RNG: `x_i`, `rid_i`, the chain code
`cc_i`, the Schnorr ephemeral pair `(r_i, A_i)` and the decommit nonce `u_i`. -/
structure LocalRand (Scalar SchSecret SchCommit : Type) where
  x : Scalar
  rid : Bytes
  chainCode : Bytes
  schSecret : SchSecret
  schCommit : SchCommit
  nonce : Bytes

/-- The four rounds of messages collected by the router. -/
structure Incoming (Point SchCommit SchProof : Type) where
  round1 : RoundMsgs MsgRound1
  round1Sync : RoundMsgs MsgReliabilityCheck
  round2 : RoundMsgs (MsgRound2 Point SchCommit)
  round3 : RoundMsgs (MsgRound3 SchProof)

variable {Point Scalar SchSecret SchCommit SchProof : Type}

/-- `my_decommitment`: the Round2 payload the local party builds in round 1.
The chain code is contributed only when `hd_enabled`. -/
def mkMyDecommitment (env : Env Point Scalar SchSecret SchCommit SchProof)
    (hdEnabled : Bool) (rand : LocalRand Scalar SchSecret SchCommit) :
    MsgRound2 Point SchCommit :=
  { rid := rand.rid
    X := env.mulGen rand.x
    sch_commit := rand.schCommit
    chain_code := if hdEnabled then some rand.chainCode else none
    decommit := rand.nonce }

/-- `my_commitment`: the Round1 message, `hash_commit` of the decommitment. -/
def mkMyCommitment (env : Env Point Scalar SchSecret SchCommit SchProof)
    (sid : Bytes) (i : Nat) (hdEnabled : Bool)
    (rand : LocalRand Scalar SchSecret SchCommit) : MsgRound1 :=
  { commitment := env.hashCom sid i (mkMyDecommitment env hdEnabled rand) }

/-- The reliability-check blame: peers whose echoed hash differs from `h_i`. -/
def reliabilityBlame (h_i : Bytes) (sync : RoundMsgs MsgReliabilityCheck) :
    List (Nat × MsgId) :=
  ((sync.into_iter_indexed.filter fun t => decide (t.2.2.hash ≠ h_i)).map
    fun t => (t.1, t.2.1))

/-- The round-3 blame: peers whose decommitment does not open their
round-1 commitment. -/
def decommitmentBlame (env : Env Point Scalar SchSecret SchCommit SchProof)
    (sid : Bytes) (r1 : RoundMsgs MsgRound1)
    (r2 : RoundMsgs (MsgRound2 Point SchCommit)) : List (Nat × MsgId) :=
  collect_blame r1 r2 fun j com decom =>
    decide (com.commitment ≠ env.hashCom sid j decom)

/-- The hd blame: peers whose decommitment carries no chain code. -/
def missingChainCodeBlame (r2 : RoundMsgs (MsgRound2 Point SchCommit)) :
    List (Nat × MsgId) :=
  collect_simple_blame r2 fun decom => decom.chain_code.isNone

/-- The body of the chain-code `try_fold`: XOR the contributed chain codes
into the accumulator, short-circuiting with `Bug::NoChainCode` on an absent
one. -/
def chainCodeFold : List (MsgRound2 Point SchCommit) → Bytes → Except Bug Bytes
  | [], acc => Except.ok acc
  | decom :: rest, acc =>
    match decom.chain_code with
    | none => Except.error Bug.NoChainCode
    | some c => chainCodeFold rest (xor_array acc c)

/-- The chain-code aggregation: `try_fold` XOR-ing all contributed chain codes
starting from the all-zero `ChainCode::default()` (32 bytes). -/
def chainCodeResult (decoms : List (MsgRound2 Point SchCommit)) :
    Except Bug Bytes :=
  chainCodeFold decoms (List.replicate 32 0)

/-- `rid`: the fold of `xor_array` over all round-2 `rid` contributions,
the local party's included, starting from the all-zero `L::Rid::default()`. -/
def computedRid (env : Env Point Scalar SchSecret SchCommit SchProof)
    (i : Nat) (hdEnabled : Bool) (rand : LocalRand Scalar SchSecret SchCommit)
    (inc : Incoming Point SchCommit SchProof) : Bytes :=
  ((inc.round2.iter_including_me i (mkMyDecommitment env hdEnabled rand)).map
      fun d => d.rid).foldl
    xor_array (List.replicate env.ridLen 0)

/-- The round-4 blame: peers whose Schnorr proof fails verification against
`(A_j, X_j)` from their decommitment and the challenge derived from `rid`. -/
def schnorrBlame (env : Env Point Scalar SchSecret SchCommit SchProof)
    (sid : Bytes) (rid : Bytes) (r2 : RoundMsgs (MsgRound2 Point SchCommit))
    (r3 : RoundMsgs (MsgRound3 SchProof)) : List (Nat × MsgId) :=
  collect_blame r2 r3 fun j decom prf =>
    ! env.schVerify prf.sch_proof decom.sch_commit (env.schChallenge sid j rid)
        decom.X

/-- Modelled from the spec: `Validate` of `DirtyCoreKeyShare` (key_share.rs is
not in src/, spec section 4.6): "Structural validation before emission asserts
index range, share count `= n`, each `X_j` non-identity, and `x_i · G = X_i`." -/
def DirtyCoreKeyShare.validate [AddCommMonoid Point] [DecidableEq Point]
    (env : Env Point Scalar SchSecret SchCommit SchProof) (n : Nat)
    (s : DirtyCoreKeyShare Point Scalar) : Bool :=
  decide (s.i < n) && decide (s.public_shares.length = n)
    && (s.public_shares.all fun Xj => decide (Xj ≠ 0))
    && decide (s.public_shares[s.i]? = some (env.mulGen s.x))

variable [AddCommMonoid Point] [DecidableEq Point]

/-- The tail of the driver from the "Calculate challenge rid" stage on:
compute `rid`, the local challenge and proof, send Round3, verify the peers'
proofs, and assemble and validate the key share. -/
def keygenFinish (env : Env Point Scalar SchSecret SchCommit SchProof)
    (sid : Bytes) (i n : Nat) (hdEnabled : Bool)
    (rand : LocalRand Scalar SchSecret SchCommit)
    (inc : Incoming Point SchCommit SchProof) (chainCode : Option Bytes)
    (out : List (Msg Point SchCommit SchProof)) :
    List (Msg Point SchCommit SchProof) ×
      Except KeygenError (DirtyCoreKeyShare Point Scalar) :=
  let myDecommitment := mkMyDecommitment env hdEnabled rand
  let rid := computedRid env i hdEnabled rand inc
  let challenge := env.schChallenge sid i rid
  let sch_proof := env.schProve rand.schSecret challenge rand.x
  let out := out ++ [Msg.Round3 ⟨sch_proof⟩]
  let blame := schnorrBlame env sid rid inc.round2 inc.round3
  if blame ≠ [] then
    (out, Except.error (KeygenError.aborted (KeygenAborted.InvalidSchnorrProof blame)))
  else
    let shares := (inc.round2.iter_including_me i myDecommitment).map fun d => d.X
    if shares.sum = 0 then
      (out, Except.error (KeygenError.bug Bug.ZeroPk))
    else
      let share : DirtyCoreKeyShare Point Scalar :=
        { i := i, shared_public_key := shares.sum, public_shares := shares
          chain_code := chainCode, x := rand.x }
      if share.validate env n then (out, Except.ok share)
      else (out, Except.error (KeygenError.bug Bug.InvalidKeyShare))

/-- The "Calculate chain_code" stage: when `hd_enabled`, blame peers with an
absent chain code and aggregate all chain codes by XOR; otherwise `None`. -/
def keygenChainCode (env : Env Point Scalar SchSecret SchCommit SchProof)
    (sid : Bytes) (i n : Nat) (hdEnabled : Bool)
    (rand : LocalRand Scalar SchSecret SchCommit)
    (inc : Incoming Point SchCommit SchProof)
    (out : List (Msg Point SchCommit SchProof)) :
    List (Msg Point SchCommit SchProof) ×
      Except KeygenError (DirtyCoreKeyShare Point Scalar) :=
  if hdEnabled then
    let blame := missingChainCodeBlame inc.round2
    if blame ≠ [] then
      (out, Except.error (KeygenError.aborted (KeygenAborted.MissingChainCode blame)))
    else
      match chainCodeResult
          (inc.round2.iter_including_me i (mkMyDecommitment env hdEnabled rand)) with
      | Except.error b => (out, Except.error (KeygenError.bug b))
      | Except.ok cc => keygenFinish env sid i n hdEnabled rand inc (some cc) out
  else keygenFinish env sid i n hdEnabled rand inc none out

/-- The driver from the start of round 3 on: send the Round2 decommitment,
validate the peers' decommitments against their round-1 commitments, then go
on to the chain-code stage. -/
def keygenRound3 (env : Env Point Scalar SchSecret SchCommit SchProof)
    (sid : Bytes) (i n : Nat) (hdEnabled : Bool)
    (rand : LocalRand Scalar SchSecret SchCommit)
    (inc : Incoming Point SchCommit SchProof)
    (out : List (Msg Point SchCommit SchProof)) :
    List (Msg Point SchCommit SchProof) ×
      Except KeygenError (DirtyCoreKeyShare Point Scalar) :=
  let out := out ++ [Msg.Round2 (mkMyDecommitment env hdEnabled rand)]
  let blame := decommitmentBlame env sid inc.round1 inc.round2
  if blame ≠ [] then
    (out, Except.error (KeygenError.aborted (KeygenAborted.InvalidDecommitment blame)))
  else keygenChainCode env sid i n hdEnabled rand inc out

/-- The pure embedding of `run_keygen`: given the local random draws and the
messages each round's router collected, produce the ordered list of broadcast
messages the driver sends and its result. -/
def run_keygen (env : Env Point Scalar SchSecret SchCommit SchProof)
    (sid : Bytes) (i n : Nat) (reliable hdEnabled : Bool)
    (rand : LocalRand Scalar SchSecret SchCommit)
    (inc : Incoming Point SchCommit SchProof) :
    List (Msg Point SchCommit SchProof) ×
      Except KeygenError (DirtyCoreKeyShare Point Scalar) :=
  let myCommitment := mkMyCommitment env sid i hdEnabled rand
  let out := [Msg.Round1 myCommitment]
  if reliable then
    let h_i := env.echoHash sid (inc.round1.iter_including_me i myCommitment)
    let out := out ++ [Msg.ReliabilityCheck ⟨h_i⟩]
    let blame := reliabilityBlame h_i inc.round1Sync
    if blame ≠ [] then
      (out, Except.error (KeygenError.aborted (KeygenAborted.Round1NotReliable blame)))
    else keygenRound3 env sid i n hdEnabled rand inc out
  else keygenRound3 env sid i n hdEnabled rand inc out

/-!
A concrete instantiation over toy external libraries, used to evaluate the
driver on explicit inputs: points, scalars and proofs are integers, the
generator is `1` (so `x · G = x`), and a Schnorr proof `z = r + c·x` verifies
against `(A, X, c)` iff `z = A + c·X`.  The digest constructions are simple
injective-enough encodings into byte strings.
-/

/-- Toy capability record over the integers. -/
def env₀ : Env Int Int Int Int Int :=
  { ridLen := 2
    hashCom := fun sid j d =>
      sid ++ j :: d.rid ++ d.decommit ++ [d.X.natAbs, d.sch_commit.natAbs] ++
        (match d.chain_code with | none => [0] | some c => 1 :: c)
    echoHash := fun sid coms => sid ++ coms.foldl (fun acc c => acc ++ c.commitment) []
    schChallenge := fun _sid j rid => (j : Int) + ((rid.foldl Nat.add 0 : Nat) : Int)
    mulGen := fun x => x
    schProve := fun r c x => r + c * x
    schVerify := fun z A c X => decide (z = A + c * X) }

/-- Execution id of the concrete scenario. -/
def sid₀ : Bytes := [42]

/-- Local random draws of party `0` in the concrete scenario. -/
def rand₀ : LocalRand Int Int Int :=
  { x := 2, rid := [1, 2], chainCode := List.replicate 32 5
    schSecret := 3, schCommit := 3, nonce := [4, 4] }

/-- Local random draws of party `1` in the concrete scenario. -/
def rand₁ : LocalRand Int Int Int :=
  { x := 5, rid := [6, 7], chainCode := List.replicate 32 9
    schSecret := 8, schCommit := 8, nonce := [2, 2] }

/-- Party 1's honest decommitment (no chain code). -/
def decom₁ : MsgRound2 Int Int := mkMyDecommitment env₀ false rand₁

/-- Party 1's honest round-1 commitment (no chain code). -/
def com₁ : MsgRound1 := ⟨env₀.hashCom sid₀ 1 decom₁⟩

/-- Party 1's honest Schnorr proof for the aggregate rid `[7, 5]`. -/
def proof₁ : MsgRound3 Int := ⟨8 + (1 + 12) * 5⟩

/-- The messages party 0 receives from party 1 in an honest run
(reliability off, hd off). -/
def inc₀ : Incoming Int Int Int :=
  { round1 := ⟨[(1, 10, com₁)]⟩
    round1Sync := ⟨[]⟩
    round2 := ⟨[(1, 12, decom₁)]⟩
    round3 := ⟨[(1, 13, proof₁)]⟩ }

/-- Decidable equality of `Except` values, for evaluating the driver's result
on concrete inputs. -/
instance exceptDecEq {ε α : Type} [DecidableEq ε] [DecidableEq α] :
    DecidableEq (Except ε α) := fun a b =>
  match a, b with
  | Except.error x, Except.error y =>
    if h : x = y then isTrue (congrArg Except.error h)
    else isFalse fun hc => h (Except.error.inj hc)
  | Except.ok x, Except.ok y =>
    if h : x = y then isTrue (congrArg Except.ok h)
    else isFalse fun hc => h (Except.ok.inj hc)
  | Except.error _, Except.ok _ => isFalse fun hc => Except.noConfusion hc
  | Except.ok _, Except.error _ => isFalse fun hc => Except.noConfusion hc

/-- The spec's aggregate of fixed-length byte arrays: byte `p` of the result
is the XOR of byte `p` across all contributions, for each `p < k`. -/
def specXorAll (k : Nat) (contribs : List Bytes) : Bytes :=
  (List.range k).map fun p => (contribs.map fun r => r.getD p 0).foldl Nat.xor 0

/-- Party 0's honest round-1 commitment (no chain code). -/
def com₀ : MsgRound1 := mkMyCommitment env₀ sid₀ 0 false rand₀

/-- A tampered decommitment of party 1: the revealed `rid` differs from the
committed one. -/
def decom₁bad : MsgRound2 Int Int := { decom₁ with rid := [6, 6] }

/-- Round messages where party 1's decommitment does not open its commitment. -/
def incBadDecom : Incoming Int Int Int :=
  { inc₀ with round2 := ⟨[(1, 12, decom₁bad)]⟩ }

/-- Round messages for a run with the reliability check on, where party 1
echoes a hash different from party 0's. -/
def incEcho : Incoming Int Int Int :=
  { inc₀ with round1Sync := ⟨[(1, 11, ⟨[9, 9]⟩)]⟩ }

/-- Party 0's echo hash in the `incEcho` scenario. -/
def h₀ : Bytes := env₀.echoHash sid₀ (incEcho.round1.iter_including_me 0 com₀)

/-- Round messages where party 1's Schnorr proof does not verify. -/
def incBadProof : Incoming Int Int Int :=
  { inc₀ with round3 := ⟨[(1, 13, ⟨0⟩)]⟩ }

/-- Party 0's draws with `x = -5`, so that the parties' public shares sum to
the identity point. -/
def randZ : LocalRand Int Int Int := { rand₀ with x := -5 }

/-- Party 1's honest decommitment when hierarchical derivation is on. -/
def decom₁hd : MsgRound2 Int Int := mkMyDecommitment env₀ true rand₁

/-- Round messages of an honest run with hierarchical derivation on. -/
def incHd : Incoming Int Int Int :=
  { round1 := ⟨[(1, 10, ⟨env₀.hashCom sid₀ 1 decom₁hd⟩)]⟩
    round1Sync := ⟨[]⟩
    round2 := ⟨[(1, 12, decom₁hd)]⟩
    round3 := ⟨[(1, 13, proof₁)]⟩ }

/-- Round messages where hierarchical derivation is on but party 1 contributes
no chain code (it commits to and reveals a chain-code-free decommitment). -/
def incHdMissing : Incoming Int Int Int :=
  { round1 := ⟨[(1, 10, com₁)]⟩
    round1Sync := ⟨[]⟩
    round2 := ⟨[(1, 12, decom₁)]⟩
    round3 := ⟨[(1, 13, proof₁)]⟩ }

/-!  Helper lemmas about the router iterators and the blame collectors. -/

theorem insertByIndex_self_mem {M : Type} (i : Nat) (my : M) :
    ∀ l : List (Nat × M), (i, my) ∈ insertByIndex i my l := by
  intro l
  induction l with
  | nil => simp [insertByIndex]
  | cons t rest ih =>
    obtain ⟨j, m⟩ := t
    by_cases h : i < j
    · simp [insertByIndex, h]
    · simp only [insertByIndex, if_neg h]
      exact List.mem_cons_of_mem _ ih

theorem mem_insertByIndex {M : Type} (i : Nat) (my : M) :
    ∀ (l : List (Nat × M)) (x : Nat × M),
      x ∈ insertByIndex i my l → x = (i, my) ∨ x ∈ l := by
  intro l
  induction l with
  | nil =>
    intro x hx
    rw [insertByIndex, List.mem_singleton] at hx
    exact Or.inl hx
  | cons t rest ih =>
    obtain ⟨j, m⟩ := t
    intro x hx
    rw [insertByIndex] at hx
    by_cases h : i < j
    · rw [if_pos h, List.mem_cons] at hx
      rcases hx with hx | hx
      · exact Or.inl hx
      · exact Or.inr hx
    · rw [if_neg h, List.mem_cons] at hx
      rcases hx with hx | hx
      · exact Or.inr (by rw [hx]; exact List.mem_cons_self _ _)
      · rcases ih x hx with hx' | hx'
        · exact Or.inl hx'
        · exact Or.inr (List.mem_cons_of_mem _ hx')

theorem insertByIndex_length {M : Type} (i : Nat) (my : M) :
    ∀ l : List (Nat × M), (insertByIndex i my l).length = l.length + 1 := by
  intro l
  induction l with
  | nil => simp [insertByIndex]
  | cons t rest ih =>
    obtain ⟨j, m⟩ := t
    by_cases h : i < j
    · simp [insertByIndex, h]
    · simp [insertByIndex, h, ih]

theorem iter_including_me_self_mem {M : Type} (s : RoundMsgs M) (i : Nat) (my : M) :
    my ∈ s.iter_including_me i my := by
  unfold RoundMsgs.iter_including_me
  exact List.mem_map_of_mem Prod.snd (insertByIndex_self_mem i my _)

theorem iter_including_me_length {M : Type} (s : RoundMsgs M) (i : Nat) (my : M) :
    (s.iter_including_me i my).length = s.msgs.length + 1 := by
  unfold RoundMsgs.iter_including_me
  rw [List.length_map, insertByIndex_length, List.length_map]

theorem mem_iter_including_me {M : Type} (s : RoundMsgs M) (i : Nat) (my : M)
    (d : M) (hd : d ∈ s.iter_including_me i my) :
    d = my ∨ ∃ j mid, (j, mid, d) ∈ s.msgs := by
  unfold RoundMsgs.iter_including_me at hd
  rw [List.mem_map] at hd
  obtain ⟨x, hx, hxd⟩ := hd
  rcases mem_insertByIndex i my _ x hx with h | h
  · left; rw [← hxd, h]
  · right
    rw [List.mem_map] at h
    obtain ⟨t, ht, hts⟩ := h
    refine ⟨t.1, t.2.1, ?_⟩
    have hd2 : t.2.2 = d := by
      rw [← hxd, ← hts]
    rw [← hd2]
    simpa using ht

theorem mem_collect_simple_blame {A : Type} (a : RoundMsgs A) (bad : A → Bool)
    (j : Nat) (mid : MsgId) :
    (j, mid) ∈ collect_simple_blame a bad ↔
      ∃ m, (j, mid, m) ∈ a.msgs ∧ bad m = true := by
  unfold collect_simple_blame
  rw [List.mem_filterMap]
  constructor
  · rintro ⟨t, ht, hf⟩
    by_cases hb : bad t.2.2
    · rw [if_pos hb] at hf
      refine ⟨t.2.2, ?_, hb⟩
      have : t = (j, mid, t.2.2) := by
        have := Option.some.inj hf
        obtain ⟨tj, tmid, tm⟩ := t
        simp at this ⊢
        exact ⟨this.1, this.2⟩
      rw [← this]; exact ht
    · rw [if_neg hb] at hf; exact absurd hf (by simp)
  · rintro ⟨m, hm, hb⟩
    exact ⟨(j, mid, m), hm, by simp [hb]⟩

theorem collect_simple_blame_eq_nil {A : Type} (a : RoundMsgs A) (bad : A → Bool)
    (h : collect_simple_blame a bad = []) :
    ∀ t ∈ a.msgs, bad t.2.2 = false := by
  unfold collect_simple_blame at h
  rw [List.filterMap_eq_nil_iff] at h
  intro t ht
  have := h t ht
  by_cases hb : bad t.2.2
  · rw [if_pos hb] at this; exact absurd this (by simp)
  · simpa using hb

theorem collect_simple_blame_fst {A : Type} (a : RoundMsgs A) (bad : A → Bool)
    (p : Nat × MsgId) (hp : p ∈ collect_simple_blame a bad) :
    p.1 ∈ a.msgs.map fun t => t.1 := by
  unfold collect_simple_blame at hp
  rw [List.mem_filterMap] at hp
  obtain ⟨t, ht, hf⟩ := hp
  by_cases hb : bad t.2.2
  · rw [if_pos hb] at hf
    have : p.1 = t.1 := by rw [← Option.some.inj hf]
    rw [this]
    exact List.mem_map_of_mem _ ht
  · rw [if_neg hb] at hf; exact absurd hf (by simp)

theorem mem_reliabilityBlame (h_i : Bytes) (sync : RoundMsgs MsgReliabilityCheck)
    (j : Nat) (mid : MsgId) :
    (j, mid) ∈ reliabilityBlame h_i sync ↔
      ∃ m, (j, mid, m) ∈ sync.msgs ∧ m.hash ≠ h_i := by
  unfold reliabilityBlame RoundMsgs.into_iter_indexed
  rw [List.mem_map]
  constructor
  · rintro ⟨t, ht, hteq⟩
    rw [List.mem_filter] at ht
    refine ⟨t.2.2, ?_, by simpa using ht.2⟩
    have : t = (j, mid, t.2.2) := by
      obtain ⟨tj, tmid, tm⟩ := t
      simp at hteq ⊢
      exact ⟨hteq.1, hteq.2⟩
    rw [← this]; exact ht.1
  · rintro ⟨m, hm, hneq⟩
    exact ⟨(j, mid, m), List.mem_filter.mpr ⟨hm, by simpa using hneq⟩, rfl⟩

theorem reliabilityBlame_fst (h_i : Bytes) (sync : RoundMsgs MsgReliabilityCheck)
    (p : Nat × MsgId) (hp : p ∈ reliabilityBlame h_i sync) :
    p.1 ∈ sync.msgs.map fun t => t.1 := by
  unfold reliabilityBlame RoundMsgs.into_iter_indexed at hp
  rw [List.mem_map] at hp
  obtain ⟨t, ht, hteq⟩ := hp
  rw [List.mem_filter] at ht
  have : p.1 = t.1 := by rw [← hteq]
  rw [this]
  exact List.mem_map_of_mem _ ht.1

theorem collect_blame_fst {A B : Type} (a : RoundMsgs A) (b : RoundMsgs B)
    (bad : Nat → A → B → Bool) (p : Nat × MsgId) (hp : p ∈ collect_blame a b bad) :
    p.1 ∈ a.msgs.map fun t => t.1 := by
  unfold collect_blame at hp
  rw [List.mem_filterMap] at hp
  obtain ⟨q, hq, hf⟩ := hp
  by_cases hb : bad q.1.1 q.1.2.2 q.2.2.2
  · rw [if_pos hb] at hf
    have hp1 : p.1 = q.1.1 := by rw [← Option.some.inj hf]
    rw [hp1]
    exact List.mem_map_of_mem _ (List.of_mem_zip hq).1
  · rw [if_neg hb] at hf; exact absurd hf (by simp)

theorem mem_collect_blame {A B : Type} (bad : Nat → A → B → Bool) (j : Nat)
    (mid : MsgId) :
    ∀ (as : List (Nat × MsgId × A)) (bs : List (Nat × MsgId × B)),
      as.map (fun t => t.1) = bs.map (fun t => t.1) →
      (bs.map fun t => t.1).Nodup →
      ((j, mid) ∈ collect_blame ⟨as⟩ ⟨bs⟩ bad ↔
        ∃ mid1 ma mb, (j, mid1, ma) ∈ as ∧ (j, mid, mb) ∈ bs ∧ bad j ma mb = true) := by
  intro as
  induction as with
  | nil =>
    intro bs h _
    have hbs : bs = [] := by
      cases bs with
      | nil => rfl
      | cons b bs => simp at h
    subst hbs
    simp [collect_blame]
  | cons ta as ih =>
    intro bs h hnodup
    match bs with
    | [] => simp at h
    | tb :: bs =>
      obtain ⟨j1, mida, ma⟩ := ta
      obtain ⟨j2, midb, mb⟩ := tb
      simp only [List.map_cons, List.cons.injEq] at h
      obtain ⟨hj, htl⟩ := h
      subst hj
      simp only [List.map_cons, List.nodup_cons] at hnodup
      obtain ⟨hj2notin, hnodup'⟩ := hnodup
      have hbase := ih bs htl hnodup'
      unfold collect_blame at hbase ⊢
      simp only [List.zip_cons_cons, List.filterMap_cons]
      by_cases hbad : bad j1 ma mb
      · rw [if_pos hbad]
        constructor
        · intro hmem
          rcases List.mem_cons.mp hmem with hmem | hmem
          · have hj : j = j1 := congrArg Prod.fst hmem
            have hm : mid = midb := congrArg Prod.snd hmem
            subst hj; subst hm
            exact ⟨mida, ma, mb, List.mem_cons_self _ _, List.mem_cons_self _ _, hbad⟩
          · obtain ⟨mid1, ma', mb', h1, h2, h3⟩ := hbase.mp hmem
            exact ⟨mid1, ma', mb', List.mem_cons_of_mem _ h1, List.mem_cons_of_mem _ h2, h3⟩
        · rintro ⟨mid1, ma', mb', h1, h2, h3⟩
          rcases List.mem_cons.mp h1 with h1 | h1 <;>
            rcases List.mem_cons.mp h2 with h2 | h2
          · have : j = j1 ∧ mid = midb := by
              refine ⟨congrArg (fun t => t.1) h1, ?_⟩
              have := congrArg (fun t => t.2.1) h2
              simpa using this
            rw [List.mem_cons]
            exact Or.inl (by rw [this.1, this.2])
          · exfalso
            have hj : j = j1 := congrArg (fun t => t.1) h1
            exact hj2notin (hj ▸ List.mem_map.mpr ⟨(j, mid, mb'), h2, rfl⟩)
          · exfalso
            have hj : j = j1 := congrArg (fun t => t.1) h2
            apply hj2notin
            rw [← htl]
            exact hj ▸ List.mem_map.mpr ⟨(j, mid1, ma'), h1, rfl⟩
          · exact List.mem_cons_of_mem _
              (hbase.mpr ⟨mid1, ma', mb', h1, h2, h3⟩)
      · rw [if_neg hbad]
        constructor
        · intro hmem
          obtain ⟨mid1, ma', mb', h1, h2, h3⟩ := hbase.mp hmem
          exact ⟨mid1, ma', mb', List.mem_cons_of_mem _ h1, List.mem_cons_of_mem _ h2, h3⟩
        · rintro ⟨mid1, ma', mb', h1, h2, h3⟩
          rcases List.mem_cons.mp h1 with h1 | h1 <;>
            rcases List.mem_cons.mp h2 with h2 | h2
          · exfalso
            have hma : ma' = ma := by
              have := congrArg (fun t => t.2.2) h1
              simpa using this
            have hmb : mb' = mb := by
              have := congrArg (fun t => t.2.2) h2
              simpa using this
            have hj : j = j1 := congrArg (fun t => t.1) h1
            rw [hma, hmb, hj] at h3
            exact hbad h3
          · exfalso
            have hj : j = j1 := congrArg (fun t => t.1) h1
            exact hj2notin (hj ▸ List.mem_map.mpr ⟨(j, mid, mb'), h2, rfl⟩)
          · exfalso
            have hj : j = j1 := congrArg (fun t => t.1) h2
            apply hj2notin
            rw [← htl]
            exact hj ▸ List.mem_map.mpr ⟨(j, mid1, ma'), h1, rfl⟩
          · exact hbase.mpr ⟨mid1, ma', mb', h1, h2, h3⟩

/-!  Lemmas about the XOR aggregation. -/

theorem xor_array_length_eq (k : Nat) (a b : Bytes)
    (ha : a.length = k) (hb : b.length = k) : (xor_array a b).length = k := by
  simp [xor_array, ha, hb]

theorem xor_array_getD (a b : Bytes) (p : Nat)
    (hpa : p < a.length) (hpb : p < b.length) :
    (xor_array a b).getD p 0 = Nat.xor (a.getD p 0) (b.getD p 0) := by
  have hl : p < (xor_array a b).length := by
    simp only [xor_array, List.length_zipWith]
    omega
  rw [List.getD_eq_getElem _ _ hl, List.getD_eq_getElem _ _ hpa,
    List.getD_eq_getElem _ _ hpb]
  simp [xor_array]

theorem foldl_xor_array_spec (k : Nat) (rids : List Bytes) :
    ∀ acc : Bytes, acc.length = k → (∀ r ∈ rids, r.length = k) →
      rids.foldl xor_array acc =
        (List.range k).map fun p =>
          (rids.map fun r => r.getD p 0).foldl Nat.xor (acc.getD p 0) := by
  induction rids with
  | nil =>
    intro acc hacc _
    simp only [List.foldl_nil, List.map_nil]
    apply List.ext_getElem
    · simp [hacc]
    · intro p h1 h2
      simp only [List.getElem_map, List.getElem_range]
      rw [List.getD_eq_getElem _ _ h1]
  | cons r rest ih =>
    intro acc hacc hlen
    rw [List.foldl_cons]
    have hrlen : r.length = k := hlen r (List.mem_cons_self _ _)
    have hxlen : (xor_array acc r).length = k := xor_array_length_eq k acc r hacc hrlen
    rw [ih (xor_array acc r) hxlen fun r' hr' => hlen r' (List.mem_cons_of_mem _ hr')]
    apply List.map_congr_left
    intro p hp
    rw [List.mem_range] at hp
    simp only [List.map_cons, List.foldl_cons]
    rw [xor_array_getD acc r p (by omega) (by omega)]

theorem foldl_xor_array_eq_specXorAll (k : Nat) (rids : List Bytes)
    (hlen : ∀ r ∈ rids, r.length = k) :
    rids.foldl xor_array (List.replicate k 0) = specXorAll k rids := by
  rw [foldl_xor_array_spec k rids (List.replicate k 0) (by simp) hlen]
  unfold specXorAll
  apply List.map_congr_left
  intro p hp
  rw [List.mem_range] at hp
  rw [List.getD_eq_getElem _ _ (by simpa using hp), List.getElem_replicate]

theorem chainCodeFold_ok {P C : Type} (decoms : List (MsgRound2 P C)) :
    ∀ acc : Bytes, (∀ d ∈ decoms, d.chain_code.isSome) →
      chainCodeFold decoms acc =
        Except.ok ((decoms.map fun d => d.chain_code.getD []).foldl xor_array acc) := by
  induction decoms with
  | nil => intro acc _; rfl
  | cons d rest ih =>
    intro acc hall
    obtain ⟨c, hc⟩ := Option.isSome_iff_exists.mp (hall d (List.mem_cons_self _ _))
    have hstep : chainCodeFold (d :: rest) acc = chainCodeFold rest (xor_array acc c) := by
      simp [chainCodeFold, hc]
    rw [hstep, ih (xor_array acc c) fun d' hd' => hall d' (List.mem_cons_of_mem _ hd')]
    simp [hc]

theorem chainCodeResult_ok {P C : Type} (decoms : List (MsgRound2 P C))
    (hall : ∀ d ∈ decoms, d.chain_code.isSome) :
    chainCodeResult decoms =
      Except.ok ((decoms.map fun d => d.chain_code.getD []).foldl
        xor_array (List.replicate 32 0)) :=
  chainCodeFold_ok decoms (List.replicate 32 0) hall

/-!  Case analysis of the driver's stages. -/

theorem keygenFinish_fst (env : Env Point Scalar SchSecret SchCommit SchProof)
    (sid : Bytes) (i n : Nat) (hd : Bool)
    (rand : LocalRand Scalar SchSecret SchCommit)
    (inc : Incoming Point SchCommit SchProof) (cc : Option Bytes)
    (out : List (Msg Point SchCommit SchProof)) :
    (keygenFinish env sid i n hd rand inc cc out).1 =
      out ++ [Msg.Round3 ⟨env.schProve rand.schSecret
        (env.schChallenge sid i (computedRid env i hd rand inc)) rand.x⟩] := by
  simp only [keygenFinish]
  split_ifs <;> rfl

theorem keygenFinish_snd_cases (env : Env Point Scalar SchSecret SchCommit SchProof)
    (sid : Bytes) (i n : Nat) (hd : Bool)
    (rand : LocalRand Scalar SchSecret SchCommit)
    (inc : Incoming Point SchCommit SchProof) (cc : Option Bytes)
    (out : List (Msg Point SchCommit SchProof)) :
    (schnorrBlame env sid (computedRid env i hd rand inc) inc.round2 inc.round3 ≠ [] ∧
      (keygenFinish env sid i n hd rand inc cc out).2 =
        Except.error (KeygenError.aborted (KeygenAborted.InvalidSchnorrProof
          (schnorrBlame env sid (computedRid env i hd rand inc) inc.round2 inc.round3)))) ∨
    (keygenFinish env sid i n hd rand inc cc out).2 =
      Except.error (KeygenError.bug Bug.ZeroPk) ∨
    (keygenFinish env sid i n hd rand inc cc out).2 =
      Except.error (KeygenError.bug Bug.InvalidKeyShare) ∨
    ∃ share, (keygenFinish env sid i n hd rand inc cc out).2 = Except.ok share := by
  by_cases hb : schnorrBlame env sid (computedRid env i hd rand inc) inc.round2 inc.round3 = []
  · by_cases hz : ((inc.round2.iter_including_me i (mkMyDecommitment env hd rand)).map
        fun d => d.X).sum = (0 : Point)
    · right; left
      simp [keygenFinish, hb, hz]
    · by_cases hv : DirtyCoreKeyShare.validate env n
        { i := i
          shared_public_key := ((inc.round2.iter_including_me i
            (mkMyDecommitment env hd rand)).map fun d => d.X).sum
          public_shares := (inc.round2.iter_including_me i
            (mkMyDecommitment env hd rand)).map fun d => d.X
          chain_code := cc, x := rand.x } = true
      · right; right; right
        exact ⟨{
            i := i,
            shared_public_key := ((inc.round2.iter_including_me i
              (mkMyDecommitment env hd rand)).map fun d => d.X).sum,
            public_shares := (inc.round2.iter_including_me i
              (mkMyDecommitment env hd rand)).map fun d => d.X,
            chain_code := cc,
            x := rand.x },
          by simp [keygenFinish, hb, hz, hv]⟩
      · right; right; left
        simp [keygenFinish, hb, hz, hv]
  · left
    exact ⟨hb, by simp [keygenFinish, hb]⟩

theorem keygenChainCode_snd_cases (env : Env Point Scalar SchSecret SchCommit SchProof)
    (sid : Bytes) (i n : Nat) (hd : Bool)
    (rand : LocalRand Scalar SchSecret SchCommit)
    (inc : Incoming Point SchCommit SchProof)
    (out : List (Msg Point SchCommit SchProof)) :
    (hd = true ∧ missingChainCodeBlame inc.round2 ≠ [] ∧
      (keygenChainCode env sid i n hd rand inc out).2 =
        Except.error (KeygenError.aborted (KeygenAborted.MissingChainCode
          (missingChainCodeBlame inc.round2)))) ∨
    (hd = true ∧ missingChainCodeBlame inc.round2 = [] ∧
      ∃ b, chainCodeResult
          (inc.round2.iter_including_me i (mkMyDecommitment env hd rand)) =
            Except.error b ∧
        (keygenChainCode env sid i n hd rand inc out).2 =
          Except.error (KeygenError.bug b)) ∨
    ∃ cc, (keygenChainCode env sid i n hd rand inc out).2 =
      (keygenFinish env sid i n hd rand inc cc out).2 := by
  cases hd with
  | false =>
    right; right
    exact ⟨none, by simp [keygenChainCode]⟩
  | true =>
    by_cases hb : missingChainCodeBlame inc.round2 = []
    · cases hcc : chainCodeResult
        (inc.round2.iter_including_me i (mkMyDecommitment env true rand)) with
      | error b =>
        right; left
        exact ⟨rfl, hb, b, rfl, by simp [keygenChainCode, hb, hcc]⟩
      | ok cc =>
        right; right
        exact ⟨some cc, by simp [keygenChainCode, hb, hcc]⟩
    · left
      exact ⟨rfl, hb, by simp [keygenChainCode, hb]⟩

theorem keygenRound3_cases (env : Env Point Scalar SchSecret SchCommit SchProof)
    (sid : Bytes) (i n : Nat) (hd : Bool)
    (rand : LocalRand Scalar SchSecret SchCommit)
    (inc : Incoming Point SchCommit SchProof)
    (out : List (Msg Point SchCommit SchProof)) :
    (decommitmentBlame env sid inc.round1 inc.round2 ≠ [] ∧
      keygenRound3 env sid i n hd rand inc out =
        (out ++ [Msg.Round2 (mkMyDecommitment env hd rand)],
          Except.error (KeygenError.aborted (KeygenAborted.InvalidDecommitment
            (decommitmentBlame env sid inc.round1 inc.round2))))) ∨
    (decommitmentBlame env sid inc.round1 inc.round2 = [] ∧
      keygenRound3 env sid i n hd rand inc out =
        keygenChainCode env sid i n hd rand inc
          (out ++ [Msg.Round2 (mkMyDecommitment env hd rand)])) := by
  by_cases hb : decommitmentBlame env sid inc.round1 inc.round2 = []
  · right
    exact ⟨hb, by simp [keygenRound3, hb]⟩
  · left
    exact ⟨hb, by simp [keygenRound3, hb]⟩

theorem run_keygen_cases (env : Env Point Scalar SchSecret SchCommit SchProof)
    (sid : Bytes) (i n : Nat) (reliable hd : Bool)
    (rand : LocalRand Scalar SchSecret SchCommit)
    (inc : Incoming Point SchCommit SchProof) :
    (reliable = true ∧
      reliabilityBlame (env.echoHash sid (inc.round1.iter_including_me i
        (mkMyCommitment env sid i hd rand))) inc.round1Sync ≠ [] ∧
      run_keygen env sid i n reliable hd rand inc =
        ([Msg.Round1 (mkMyCommitment env sid i hd rand),
          Msg.ReliabilityCheck ⟨env.echoHash sid (inc.round1.iter_including_me i
            (mkMyCommitment env sid i hd rand))⟩],
         Except.error (KeygenError.aborted (KeygenAborted.Round1NotReliable
           (reliabilityBlame (env.echoHash sid (inc.round1.iter_including_me i
             (mkMyCommitment env sid i hd rand))) inc.round1Sync))))) ∨
    ((reliable = false ∨
        reliabilityBlame (env.echoHash sid (inc.round1.iter_including_me i
          (mkMyCommitment env sid i hd rand))) inc.round1Sync = []) ∧
      run_keygen env sid i n reliable hd rand inc =
        keygenRound3 env sid i n hd rand inc
          (if reliable then
            [Msg.Round1 (mkMyCommitment env sid i hd rand),
             Msg.ReliabilityCheck ⟨env.echoHash sid (inc.round1.iter_including_me i
               (mkMyCommitment env sid i hd rand))⟩]
           else [Msg.Round1 (mkMyCommitment env sid i hd rand)])) := by
  cases reliable with
  | false =>
    right
    exact ⟨Or.inl rfl, by simp [run_keygen]⟩
  | true =>
    by_cases hb : reliabilityBlame (env.echoHash sid (inc.round1.iter_including_me i
        (mkMyCommitment env sid i hd rand))) inc.round1Sync = []
    · right
      exact ⟨Or.inr hb, by simp [run_keygen, hb]⟩
    · left
      exact ⟨rfl, hb, by simp [run_keygen, hb]⟩

theorem keygenFinish_snd_out_irrel (env : Env Point Scalar SchSecret SchCommit SchProof)
    (sid : Bytes) (i n : Nat) (hd : Bool)
    (rand : LocalRand Scalar SchSecret SchCommit)
    (inc : Incoming Point SchCommit SchProof) (cc : Option Bytes)
    (out out' : List (Msg Point SchCommit SchProof)) :
    (keygenFinish env sid i n hd rand inc cc out).2 =
      (keygenFinish env sid i n hd rand inc cc out').2 := by
  simp only [keygenFinish]
  split_ifs <;> rfl

theorem keygenChainCode_snd_out_irrel (env : Env Point Scalar SchSecret SchCommit SchProof)
    (sid : Bytes) (i n : Nat) (hd : Bool)
    (rand : LocalRand Scalar SchSecret SchCommit)
    (inc : Incoming Point SchCommit SchProof)
    (out out' : List (Msg Point SchCommit SchProof)) :
    (keygenChainCode env sid i n hd rand inc out).2 =
      (keygenChainCode env sid i n hd rand inc out').2 := by
  cases hd with
  | false =>
    simp only [keygenChainCode, Bool.false_eq_true, if_false]
    exact keygenFinish_snd_out_irrel env sid i n false rand inc none out out'
  | true =>
    by_cases hb : missingChainCodeBlame inc.round2 = []
    · cases hcc : chainCodeResult
        (inc.round2.iter_including_me i (mkMyDecommitment env true rand)) with
      | error b => simp [keygenChainCode, hb, hcc]
      | ok cc =>
        simp only [keygenChainCode, hb, hcc]
        simp only [ne_eq, not_true_eq_false, if_false]
        exact keygenFinish_snd_out_irrel env sid i n true rand inc (some cc) out out'
    · simp [keygenChainCode, hb]

theorem keygenRound3_snd_out_irrel (env : Env Point Scalar SchSecret SchCommit SchProof)
    (sid : Bytes) (i n : Nat) (hd : Bool)
    (rand : LocalRand Scalar SchSecret SchCommit)
    (inc : Incoming Point SchCommit SchProof)
    (out out' : List (Msg Point SchCommit SchProof)) :
    (keygenRound3 env sid i n hd rand inc out).2 =
      (keygenRound3 env sid i n hd rand inc out').2 := by
  by_cases hb : decommitmentBlame env sid inc.round1 inc.round2 = []
  · simp only [keygenRound3, hb]
    simp only [ne_eq, not_true_eq_false, if_false]
    exact keygenChainCode_snd_out_irrel env sid i n hd rand inc _ _
  · simp [keygenRound3, hb]

theorem run_keygen_snd_eq (env : Env Point Scalar SchSecret SchCommit SchProof)
    (sid : Bytes) (i n : Nat) (reliable hd : Bool)
    (rand : LocalRand Scalar SchSecret SchCommit)
    (inc : Incoming Point SchCommit SchProof)
    (hpass : reliable = false ∨
      reliabilityBlame (env.echoHash sid (inc.round1.iter_including_me i
        (mkMyCommitment env sid i hd rand))) inc.round1Sync = []) :
    (run_keygen env sid i n reliable hd rand inc).2 =
      (keygenRound3 env sid i n hd rand inc []).2 := by
  rcases run_keygen_cases env sid i n reliable hd rand inc with
    ⟨hrel, hbl, hrun⟩ | ⟨_, hrun⟩
  · exfalso
    rcases hpass with hp | hp
    · rw [hp] at hrel
      exact Bool.noConfusion hrel
    · exact hbl hp
  · rw [hrun]
    exact keygenRound3_snd_out_irrel env sid i n hd rand inc _ _

theorem keygenRound3_snd_eq (env : Env Point Scalar SchSecret SchCommit SchProof)
    (sid : Bytes) (i n : Nat) (hd : Bool)
    (rand : LocalRand Scalar SchSecret SchCommit)
    (inc : Incoming Point SchCommit SchProof)
    (out : List (Msg Point SchCommit SchProof))
    (hnil : decommitmentBlame env sid inc.round1 inc.round2 = []) :
    (keygenRound3 env sid i n hd rand inc out).2 =
      (keygenChainCode env sid i n hd rand inc []).2 := by
  simp only [keygenRound3, hnil]
  simp only [ne_eq, not_true_eq_false, if_false]
  exact keygenChainCode_snd_out_irrel env sid i n hd rand inc _ _

theorem mem_collect_blame_store {A B : Type} (a : RoundMsgs A) (b : RoundMsgs B)
    (bad : Nat → A → B → Bool) (j : Nat) (mid : MsgId)
    (halign : a.msgs.map (fun t => t.1) = b.msgs.map fun t => t.1)
    (hnodup : (b.msgs.map fun t => t.1).Nodup) :
    (j, mid) ∈ collect_blame a b bad ↔
      ∃ mid1 ma mb, (j, mid1, ma) ∈ a.msgs ∧ (j, mid, mb) ∈ b.msgs ∧
        bad j ma mb = true := by
  obtain ⟨as⟩ := a
  obtain ⟨bs⟩ := b
  exact mem_collect_blame bad j mid as bs halign hnodup

theorem ne_of_fst_mem {M : Type} (msgs : List (Nat × MsgId × M)) (i : Nat)
    (h : ∀ t ∈ msgs, t.1 ≠ i) (j : Nat)
    (hj : j ∈ msgs.map fun t => t.1) : j ≠ i := by
  rw [List.mem_map] at hj
  obtain ⟨t, ht, hteq⟩ := hj
  rw [← hteq]
  exact h t ht

theorem all_chain_code_some_of_no_missing
    (env : Env Point Scalar SchSecret SchCommit SchProof) (i : Nat)
    (rand : LocalRand Scalar SchSecret SchCommit)
    (r2 : RoundMsgs (MsgRound2 Point SchCommit))
    (hb : missingChainCodeBlame r2 = []) :
    ∀ d ∈ r2.iter_including_me i (mkMyDecommitment env true rand),
      d.chain_code.isSome := by
  have hnone := collect_simple_blame_eq_nil r2
    (fun decom => decom.chain_code.isNone)
    (by simpa [missingChainCodeBlame] using hb)
  intro d hd
  rcases mem_iter_including_me r2 i (mkMyDecommitment env true rand) d hd with
    h | ⟨j, mid, hmem⟩
  · rw [h]
    simp [mkMyDecommitment]
  · have := hnone (j, mid, d) hmem
    cases hcc : d.chain_code with
    | none => simp [hcc] at this
    | some c => simp [hcc]

theorem chainCodeResult_isOk_of_no_missing
    (env : Env Point Scalar SchSecret SchCommit SchProof) (i : Nat)
    (rand : LocalRand Scalar SchSecret SchCommit)
    (r2 : RoundMsgs (MsgRound2 Point SchCommit))
    (hb : missingChainCodeBlame r2 = []) :
    ∃ cc, chainCodeResult (r2.iter_including_me i (mkMyDecommitment env true rand)) =
      Except.ok cc :=
  ⟨_, chainCodeResult_ok _ (all_chain_code_some_of_no_missing env i rand r2 hb)⟩

theorem keygenFinish_snd_ne_no_chain_code
    (env : Env Point Scalar SchSecret SchCommit SchProof)
    (sid : Bytes) (i n : Nat) (hd : Bool)
    (rand : LocalRand Scalar SchSecret SchCommit)
    (inc : Incoming Point SchCommit SchProof) (cc : Option Bytes)
    (out : List (Msg Point SchCommit SchProof)) :
    (keygenFinish env sid i n hd rand inc cc out).2 ≠
      Except.error (KeygenError.bug Bug.NoChainCode) := by
  intro hcontra
  rcases keygenFinish_snd_cases env sid i n hd rand inc cc out with
    ⟨_, hf⟩ | hf | hf | ⟨share, hf⟩ <;> rw [hf] at hcontra <;> simp at hcontra

theorem keygenChainCode_snd_ne_no_chain_code
    (env : Env Point Scalar SchSecret SchCommit SchProof)
    (sid : Bytes) (i n : Nat) (hd : Bool)
    (rand : LocalRand Scalar SchSecret SchCommit)
    (inc : Incoming Point SchCommit SchProof)
    (out : List (Msg Point SchCommit SchProof)) :
    (keygenChainCode env sid i n hd rand inc out).2 ≠
      Except.error (KeygenError.bug Bug.NoChainCode) := by
  intro hcontra
  rcases keygenChainCode_snd_cases env sid i n hd rand inc out with
    ⟨_, _, hcc⟩ | ⟨hhd, hbl, b, hres, hcc⟩ | ⟨cc, hcc⟩
  · rw [hcc] at hcontra
    simp at hcontra
  · subst hhd
    obtain ⟨cc, hok⟩ := chainCodeResult_isOk_of_no_missing env i rand inc.round2 hbl
    rw [hok] at hres
    exact Except.noConfusion hres
  · rw [hcc] at hcontra
    exact keygenFinish_snd_ne_no_chain_code env sid i n hd rand inc cc out hcontra

theorem keygenRound3_snd_ne_no_chain_code
    (env : Env Point Scalar SchSecret SchCommit SchProof)
    (sid : Bytes) (i n : Nat) (hd : Bool)
    (rand : LocalRand Scalar SchSecret SchCommit)
    (inc : Incoming Point SchCommit SchProof)
    (out : List (Msg Point SchCommit SchProof)) :
    (keygenRound3 env sid i n hd rand inc out).2 ≠
      Except.error (KeygenError.bug Bug.NoChainCode) := by
  intro hcontra
  rcases keygenRound3_cases env sid i n hd rand inc out with ⟨_, hr⟩ | ⟨_, hr⟩
  · rw [hr] at hcontra
    simp at hcontra
  · rw [hr] at hcontra
    exact keygenChainCode_snd_ne_no_chain_code env sid i n hd rand inc _ hcontra

theorem keygenChainCode_fst_extends (env : Env Point Scalar SchSecret SchCommit SchProof)
    (sid : Bytes) (i n : Nat) (hd : Bool)
    (rand : LocalRand Scalar SchSecret SchCommit)
    (inc : Incoming Point SchCommit SchProof)
    (out : List (Msg Point SchCommit SchProof)) :
    ∃ rest, (keygenChainCode env sid i n hd rand inc out).1 = out ++ rest := by
  cases hd with
  | false =>
    refine ⟨[Msg.Round3 ⟨env.schProve rand.schSecret
      (env.schChallenge sid i (computedRid env i false rand inc)) rand.x⟩], ?_⟩
    simp only [keygenChainCode, Bool.false_eq_true, if_false]
    exact keygenFinish_fst env sid i n false rand inc none out
  | true =>
    by_cases hb : missingChainCodeBlame inc.round2 = []
    · cases hcc : chainCodeResult
        (inc.round2.iter_including_me i (mkMyDecommitment env true rand)) with
      | error b =>
        exact ⟨[], by simp [keygenChainCode, hb, hcc]⟩
      | ok cc =>
        refine ⟨[Msg.Round3 ⟨env.schProve rand.schSecret
          (env.schChallenge sid i (computedRid env i true rand inc)) rand.x⟩], ?_⟩
        simp only [keygenChainCode, hb, hcc]
        simp only [ne_eq, not_true_eq_false, if_false]
        exact keygenFinish_fst env sid i n true rand inc (some cc) out
    · exact ⟨[], by simp [keygenChainCode, hb]⟩

theorem keygenRound3_fst_extends (env : Env Point Scalar SchSecret SchCommit SchProof)
    (sid : Bytes) (i n : Nat) (hd : Bool)
    (rand : LocalRand Scalar SchSecret SchCommit)
    (inc : Incoming Point SchCommit SchProof)
    (out : List (Msg Point SchCommit SchProof)) :
    ∃ rest, (keygenRound3 env sid i n hd rand inc out).1 =
      out ++ [Msg.Round2 (mkMyDecommitment env hd rand)] ++ rest := by
  by_cases hb : decommitmentBlame env sid inc.round1 inc.round2 = []
  · obtain ⟨rest, h⟩ := keygenChainCode_fst_extends env sid i n hd rand inc
      (out ++ [Msg.Round2 (mkMyDecommitment env hd rand)])
    refine ⟨rest, ?_⟩
    simp only [keygenRound3, hb]
    simp only [ne_eq, not_true_eq_false, if_false]
    exact h
  · exact ⟨[], by simp [keygenRound3, hb]⟩

theorem keygenRound3_snd_aborted_forms (env : Env Point Scalar SchSecret SchCommit SchProof)
    (sid : Bytes) (i n : Nat) (hd : Bool)
    (rand : LocalRand Scalar SchSecret SchCommit)
    (inc : Incoming Point SchCommit SchProof)
    (out : List (Msg Point SchCommit SchProof)) (e : KeygenAborted)
    (he : (keygenRound3 env sid i n hd rand inc out).2 =
      Except.error (KeygenError.aborted e)) :
    (∃ l, e = KeygenAborted.InvalidDecommitment l) ∨
    (∃ l, e = KeygenAborted.MissingChainCode l) ∨
    (∃ l, e = KeygenAborted.InvalidSchnorrProof l) := by
  rcases keygenRound3_cases env sid i n hd rand inc out with ⟨_, hr⟩ | ⟨_, hr⟩
  · rw [hr] at he
    exact Or.inl ⟨decommitmentBlame env sid inc.round1 inc.round2,
      by simpa using he.symm⟩
  · rw [hr] at he
    rcases keygenChainCode_snd_cases env sid i n hd rand inc
        (out ++ [Msg.Round2 (mkMyDecommitment env hd rand)]) with
      ⟨_, _, hcc⟩ | ⟨_, _, b, _, hcc⟩ | ⟨cc, hcc⟩
    · rw [hcc] at he
      exact Or.inr (Or.inl ⟨missingChainCodeBlame inc.round2, by simpa using he.symm⟩)
    · rw [hcc] at he
      simp at he
    · rw [hcc] at he
      rcases keygenFinish_snd_cases env sid i n hd rand inc cc
          (out ++ [Msg.Round2 (mkMyDecommitment env hd rand)]) with
        ⟨_, hf⟩ | hf | hf | ⟨share, hf⟩ <;> rw [hf] at he
      · exact Or.inr (Or.inr ⟨schnorrBlame env sid (computedRid env i hd rand inc)
          inc.round2 inc.round3, by simpa using he.symm⟩)
      · simp at he
      · simp at he
      · simp at he

theorem keygenFinish_ok_inv (env : Env Point Scalar SchSecret SchCommit SchProof)
    (sid : Bytes) (i n : Nat) (hd : Bool)
    (rand : LocalRand Scalar SchSecret SchCommit)
    (inc : Incoming Point SchCommit SchProof) (cc : Option Bytes)
    (out : List (Msg Point SchCommit SchProof))
    (share : DirtyCoreKeyShare Point Scalar)
    (hok : (keygenFinish env sid i n hd rand inc cc out).2 = Except.ok share) :
    share = {
      i := i,
      shared_public_key := ((inc.round2.iter_including_me i
        (mkMyDecommitment env hd rand)).map fun d => d.X).sum,
      public_shares := (inc.round2.iter_including_me i
        (mkMyDecommitment env hd rand)).map fun d => d.X,
      chain_code := cc,
      x := rand.x }
    ∧ schnorrBlame env sid (computedRid env i hd rand inc) inc.round2 inc.round3 = []
    ∧ ((inc.round2.iter_including_me i
        (mkMyDecommitment env hd rand)).map fun d => d.X).sum ≠ 0 := by
  by_cases hb : schnorrBlame env sid (computedRid env i hd rand inc)
      inc.round2 inc.round3 = []
  · by_cases hz : ((inc.round2.iter_including_me i
        (mkMyDecommitment env hd rand)).map fun d => d.X).sum = (0 : Point)
    · simp [keygenFinish, hb, hz] at hok
    · by_cases hv : DirtyCoreKeyShare.validate env n
        { i := i,
          shared_public_key := ((inc.round2.iter_including_me i
            (mkMyDecommitment env hd rand)).map fun d => d.X).sum,
          public_shares := (inc.round2.iter_including_me i
            (mkMyDecommitment env hd rand)).map fun d => d.X,
          chain_code := cc, x := rand.x } = true
      · refine ⟨?_, hb, hz⟩
        have h2 := hok
        simp [keygenFinish, hb, hz, hv] at h2
        exact h2.symm
      · simp [keygenFinish, hb, hz, hv] at hok
  · simp [keygenFinish, hb] at hok

/-!  The claims. -/

/-- Claim C7: for every two runs of `run_keygen` with the same `sid`, party
index and count, flags, random draws `(x_i, rid_i, r_i, u_i, cc_i)` and the
same received peer messages, the driver emits identical outgoing messages in
the same order and returns the same result — the protocol is deterministic in
its inputs and randomness. -/
theorem run_keygen_deterministic (env : Env Point Scalar SchSecret SchCommit SchProof)
    (sid : Bytes) (i n : Nat) (reliable hd : Bool)
    (rand rand' : LocalRand Scalar SchSecret SchCommit)
    (inc inc' : Incoming Point SchCommit SchProof)
    (h : rand = rand' ∧ inc = inc') :
    run_keygen env sid i n reliable hd rand inc =
      run_keygen env sid i n reliable hd rand' inc' := by
  rw [h.1, h.2]

/-- Witness for claim C7 at a concrete input. -/
theorem run_keygen_deterministic_witness :
    run_keygen env₀ sid₀ 0 2 false false rand₀ inc₀ =
      run_keygen env₀ sid₀ 0 2 false false rand₀ inc₀ :=
  run_keygen_deterministic env₀ sid₀ 0 2 false false rand₀ rand₀ inc₀ inc₀ ⟨rfl, rfl⟩

/-- Claim C9: the `Bug::NoChainCode` branch inside the chain-code XOR fold is
unreachable: `run_keygen` can never return this bug, because whenever the fold
runs, `hd_enabled` is on (so the local chain code was sampled present) and the
missing-chain-code blame check has just verified every peer's chain code
present. -/
theorem no_chain_code_bug_unreachable
    (env : Env Point Scalar SchSecret SchCommit SchProof)
    (sid : Bytes) (i n : Nat) (reliable hd : Bool)
    (rand : LocalRand Scalar SchSecret SchCommit)
    (inc : Incoming Point SchCommit SchProof) :
    (run_keygen env sid i n reliable hd rand inc).2 ≠
      Except.error (KeygenError.bug Bug.NoChainCode) := by
  intro hcontra
  rcases run_keygen_cases env sid i n reliable hd rand inc with
    ⟨_, _, hrun⟩ | ⟨_, hrun⟩
  · rw [hrun] at hcontra
    simp at hcontra
  · rw [hrun] at hcontra
    exact keygenRound3_snd_ne_no_chain_code env sid i n hd rand inc _ hcontra

/-- Claim C10: every blame list the driver can return (`Round1NotReliable`,
`InvalidDecommitment`, `MissingChainCode`, `InvalidSchnorrProof`) contains
only indices of other parties, never the local index `i`, because each check
runs over the peer messages collected by the router. -/
theorem blame_never_contains_self
    (env : Env Point Scalar SchSecret SchCommit SchProof)
    (sid : Bytes) (i n : Nat) (reliable hd : Bool)
    (rand : LocalRand Scalar SchSecret SchCommit)
    (inc : Incoming Point SchCommit SchProof)
    (h1 : ∀ t ∈ inc.round1.msgs, t.1 ≠ i)
    (hs : ∀ t ∈ inc.round1Sync.msgs, t.1 ≠ i)
    (h2 : ∀ t ∈ inc.round2.msgs, t.1 ≠ i)
    (h3 : ∀ t ∈ inc.round3.msgs, t.1 ≠ i) :
    ∀ e, (run_keygen env sid i n reliable hd rand inc).2 =
        Except.error (KeygenError.aborted e) →
      ∀ p ∈ e.blamed, p.1 ≠ i := by
  intro e he p hp
  rcases run_keygen_cases env sid i n reliable hd rand inc with
    ⟨_, _, hrun⟩ | ⟨_, hrun⟩
  · rw [hrun] at he
    simp only at he
    obtain rfl : KeygenAborted.Round1NotReliable _ = e := by
      simpa using he
    simp only [KeygenAborted.blamed] at hp
    exact ne_of_fst_mem inc.round1Sync.msgs i hs p.1
      (reliabilityBlame_fst _ inc.round1Sync p hp)
  · rw [hrun] at he
    rcases keygenRound3_cases env sid i n hd rand inc
        (if reliable then
          [Msg.Round1 (mkMyCommitment env sid i hd rand),
           Msg.ReliabilityCheck ⟨env.echoHash sid (inc.round1.iter_including_me i
             (mkMyCommitment env sid i hd rand))⟩]
         else [Msg.Round1 (mkMyCommitment env sid i hd rand)]) with
      ⟨_, hr⟩ | ⟨_, hr⟩
    · rw [hr] at he
      obtain rfl : KeygenAborted.InvalidDecommitment _ = e := by
        simpa using he
      simp only [KeygenAborted.blamed] at hp
      exact ne_of_fst_mem inc.round1.msgs i h1 p.1
        (collect_blame_fst inc.round1 inc.round2 _ p
          (by simpa [decommitmentBlame] using hp))
    · rw [hr] at he
      rcases keygenChainCode_snd_cases env sid i n hd rand inc
          ((if reliable then
            [Msg.Round1 (mkMyCommitment env sid i hd rand),
             Msg.ReliabilityCheck ⟨env.echoHash sid (inc.round1.iter_including_me i
               (mkMyCommitment env sid i hd rand))⟩]
           else [Msg.Round1 (mkMyCommitment env sid i hd rand)]) ++
            [Msg.Round2 (mkMyDecommitment env hd rand)]) with
        ⟨_, _, hcc⟩ | ⟨_, _, b, _, hcc⟩ | ⟨cc, hcc⟩
      · rw [hcc] at he
        obtain rfl : KeygenAborted.MissingChainCode _ = e := by
          simpa using he
        simp only [KeygenAborted.blamed] at hp
        exact ne_of_fst_mem inc.round2.msgs i h2 p.1
          (collect_simple_blame_fst inc.round2 _ p
            (by simpa [missingChainCodeBlame] using hp))
      · rw [hcc] at he
        simp at he
      · rw [hcc] at he
        rcases keygenFinish_snd_cases env sid i n hd rand inc cc
            ((if reliable then
              [Msg.Round1 (mkMyCommitment env sid i hd rand),
               Msg.ReliabilityCheck ⟨env.echoHash sid (inc.round1.iter_including_me i
                 (mkMyCommitment env sid i hd rand))⟩]
             else [Msg.Round1 (mkMyCommitment env sid i hd rand)]) ++
              [Msg.Round2 (mkMyDecommitment env hd rand)]) with
          ⟨_, hf⟩ | hf | hf | ⟨share, hf⟩
        · rw [hf] at he
          obtain rfl : KeygenAborted.InvalidSchnorrProof _ = e := by
            simpa using he
          simp only [KeygenAborted.blamed] at hp
          exact ne_of_fst_mem inc.round2.msgs i h2 p.1
            (collect_blame_fst inc.round2 inc.round3 _ p
              (by simpa [schnorrBlame] using hp))
        · rw [hf] at he
          simp at he
        · rw [hf] at he
          simp at he
        · rw [hf] at he
          simp at he

/-- Witness for claim C10 at a concrete input: party 0 blames party 1 for an
invalid decommitment, and 1 is not 0. -/
theorem blame_never_contains_self_witness : ((1, 12) : Nat × MsgId).1 ≠ 0 :=
  blame_never_contains_self env₀ sid₀ 0 2 false false rand₀ incBadDecom
    (by decide) (by decide) (by decide) (by decide)
    (KeygenAborted.InvalidDecommitment [(1, 12)]) (by decide) (1, 12) (by decide)

/-- Claim C1: in round 3 the driver recomputes, for every peer `j`, the
commitment hash `HashCom(sid, j, decommit_j)` from the received round-2
decommitment and compares it with the stored round-1 commitment `com_j`; if
the set of mismatching peers is non-empty it returns
`KeygenAborted::InvalidDecommitment` listing exactly those peers, and
otherwise it proceeds without this error. -/
theorem invalid_decommitment_check
    (env : Env Point Scalar SchSecret SchCommit SchProof)
    (sid : Bytes) (i n : Nat) (reliable hd : Bool)
    (rand : LocalRand Scalar SchSecret SchCommit)
    (inc : Incoming Point SchCommit SchProof)
    (hpass : reliable = false ∨
      reliabilityBlame (env.echoHash sid (inc.round1.iter_including_me i
        (mkMyCommitment env sid i hd rand))) inc.round1Sync = [])
    (halign : inc.round1.msgs.map (fun t => t.1) = inc.round2.msgs.map fun t => t.1)
    (hnodup : (inc.round2.msgs.map fun t => t.1).Nodup) :
    (∀ j mid, (j, mid) ∈ decommitmentBlame env sid inc.round1 inc.round2 ↔
      ∃ mid1 com decom, (j, mid1, com) ∈ inc.round1.msgs ∧
        (j, mid, decom) ∈ inc.round2.msgs ∧
        com.commitment ≠ env.hashCom sid j decom)
    ∧ (decommitmentBlame env sid inc.round1 inc.round2 ≠ [] →
        (run_keygen env sid i n reliable hd rand inc).2 =
          Except.error (KeygenError.aborted (KeygenAborted.InvalidDecommitment
            (decommitmentBlame env sid inc.round1 inc.round2))))
    ∧ (decommitmentBlame env sid inc.round1 inc.round2 = [] →
        ∀ l, (run_keygen env sid i n reliable hd rand inc).2 ≠
          Except.error (KeygenError.aborted (KeygenAborted.InvalidDecommitment l))) := by
  refine ⟨?_, ?_, ?_⟩
  · intro j mid
    constructor
    · intro hmem
      obtain ⟨mid1, com, decom, hc1, hc2, hc3⟩ :=
        (mem_collect_blame_store inc.round1 inc.round2 _ j mid halign hnodup).mp hmem
      exact ⟨mid1, com, decom, hc1, hc2, of_decide_eq_true hc3⟩
    · rintro ⟨mid1, com, decom, hc1, hc2, hc3⟩
      exact (mem_collect_blame_store inc.round1 inc.round2 _ j mid halign hnodup).mpr
        ⟨mid1, com, decom, hc1, hc2, decide_eq_true hc3⟩
  · intro hne
    rw [run_keygen_snd_eq env sid i n reliable hd rand inc hpass]
    rcases keygenRound3_cases env sid i n hd rand inc [] with ⟨_, hr⟩ | ⟨hnil, _⟩
    · rw [hr]
    · exact absurd hnil hne
  · intro hnil l hcontra
    rw [run_keygen_snd_eq env sid i n reliable hd rand inc hpass,
      keygenRound3_snd_eq env sid i n hd rand inc [] hnil] at hcontra
    rcases keygenChainCode_snd_cases env sid i n hd rand inc [] with
      ⟨_, _, hcc⟩ | ⟨_, _, b, _, hcc⟩ | ⟨cc, hcc⟩ <;> rw [hcc] at hcontra
    · simp at hcontra
    · simp at hcontra
    · rcases keygenFinish_snd_cases env sid i n hd rand inc cc [] with
        ⟨_, hf⟩ | hf | hf | ⟨share, hf⟩ <;> rw [hf] at hcontra <;> simp at hcontra

/-- Witness for claim C1 at a concrete input: party 1 reveals a decommitment
whose hash does not open its commitment, and party 0 aborts blaming exactly
party 1. -/
theorem invalid_decommitment_check_witness :
    (run_keygen env₀ sid₀ 0 2 false false rand₀ incBadDecom).2 =
      Except.error (KeygenError.aborted
        (KeygenAborted.InvalidDecommitment [(1, 12)])) := by
  have h := (invalid_decommitment_check env₀ sid₀ 0 2 false false rand₀ incBadDecom
    (Or.inl rfl) (by decide) (by decide)).2.1 (by decide)
  rw [show decommitmentBlame env₀ sid₀ incBadDecom.round1 incBadDecom.round2 =
    [(1, 12)] from by decide] at h
  exact h

/-- Claim C3: in round 4 the driver recomputes, for every peer `j`, the
Schnorr challenge `c_j` by hashing `(sid, j, rid)` to a scalar, where `rid` is
the aggregate randomness identifier, and verifies the received proof `π_j`
against `(A_j, X_j, c_j)` from `j`'s decommitment; if the set of failing peers
is non-empty it returns `KeygenAborted::InvalidSchnorrProof` listing exactly
those peers, and otherwise (the proof check raising no abort) it completes the
protocol when the public key is non-zero and the assembled share validates. -/
theorem invalid_schnorr_proof_check
    (env : Env Point Scalar SchSecret SchCommit SchProof)
    (sid : Bytes) (i n : Nat) (reliable hd : Bool)
    (rand : LocalRand Scalar SchSecret SchCommit)
    (inc : Incoming Point SchCommit SchProof)
    (hpass : reliable = false ∨
      reliabilityBlame (env.echoHash sid (inc.round1.iter_including_me i
        (mkMyCommitment env sid i hd rand))) inc.round1Sync = [])
    (hdecom : decommitmentBlame env sid inc.round1 inc.round2 = [])
    (hcc : hd = true → missingChainCodeBlame inc.round2 = [])
    (halign : inc.round2.msgs.map (fun t => t.1) = inc.round3.msgs.map fun t => t.1)
    (hnodup : (inc.round3.msgs.map fun t => t.1).Nodup) :
    (∀ j mid, (j, mid) ∈ schnorrBlame env sid (computedRid env i hd rand inc)
        inc.round2 inc.round3 ↔
      ∃ mid2 decom prf, (j, mid2, decom) ∈ inc.round2.msgs ∧
        (j, mid, prf) ∈ inc.round3.msgs ∧
        env.schVerify prf.sch_proof decom.sch_commit
          (env.schChallenge sid j (computedRid env i hd rand inc)) decom.X = false)
    ∧ (schnorrBlame env sid (computedRid env i hd rand inc) inc.round2 inc.round3 ≠ [] →
        (run_keygen env sid i n reliable hd rand inc).2 =
          Except.error (KeygenError.aborted (KeygenAborted.InvalidSchnorrProof
            (schnorrBlame env sid (computedRid env i hd rand inc)
              inc.round2 inc.round3))))
    ∧ (schnorrBlame env sid (computedRid env i hd rand inc) inc.round2 inc.round3 = [] →
        (∀ l, (run_keygen env sid i n reliable hd rand inc).2 ≠
          Except.error (KeygenError.aborted (KeygenAborted.InvalidSchnorrProof l)))
        ∧ (((inc.round2.iter_including_me i (mkMyDecommitment env hd rand)).map
              fun d => d.X).sum ≠ 0 →
            (run_keygen env sid i n reliable hd rand inc).2 =
                Except.error (KeygenError.bug Bug.InvalidKeyShare) ∨
              ∃ share, (run_keygen env sid i n reliable hd rand inc).2 =
                Except.ok share)) := by
  have hchain : ∃ cc, (keygenChainCode env sid i n hd rand inc []).2 =
      (keygenFinish env sid i n hd rand inc cc []).2 := by
    rcases keygenChainCode_snd_cases env sid i n hd rand inc [] with
      ⟨hhd, hne, _⟩ | ⟨hhd, hbl, b, hres, _⟩ | ⟨cc, h⟩
    · exact absurd (hcc hhd) hne
    · exfalso
      subst hhd
      obtain ⟨cc, hok⟩ := chainCodeResult_isOk_of_no_missing env i rand inc.round2 hbl
      rw [hok] at hres
      exact Except.noConfusion hres
    · exact ⟨cc, h⟩
  refine ⟨?_, ?_, ?_⟩
  · intro j mid
    constructor
    · intro hmem
      obtain ⟨mid2, decom, prf, hc1, hc2, hc3⟩ :=
        (mem_collect_blame_store inc.round2 inc.round3 _ j mid halign hnodup).mp hmem
      refine ⟨mid2, decom, prf, hc1, hc2, ?_⟩
      simpa using hc3
    · rintro ⟨mid2, decom, prf, hc1, hc2, hc3⟩
      refine (mem_collect_blame_store inc.round2 inc.round3 _ j mid halign hnodup).mpr
        ⟨mid2, decom, prf, hc1, hc2, ?_⟩
      simpa using hc3
  · intro hne
    obtain ⟨cc, hfin⟩ := hchain
    rw [run_keygen_snd_eq env sid i n reliable hd rand inc hpass,
      keygenRound3_snd_eq env sid i n hd rand inc [] hdecom, hfin]
    rcases keygenFinish_snd_cases env sid i n hd rand inc cc [] with
      ⟨_, hf⟩ | hf | hf | ⟨share, hf⟩
    · rw [hf]
    · simp [keygenFinish, hne] at hf
    · simp [keygenFinish, hne] at hf
    · simp [keygenFinish, hne] at hf
  · intro hnil
    obtain ⟨cc, hfin⟩ := hchain
    have hrw : (run_keygen env sid i n reliable hd rand inc).2 =
        (keygenFinish env sid i n hd rand inc cc []).2 := by
      rw [run_keygen_snd_eq env sid i n reliable hd rand inc hpass,
        keygenRound3_snd_eq env sid i n hd rand inc [] hdecom, hfin]
    constructor
    · intro l hcontra
      rw [hrw] at hcontra
      rcases keygenFinish_snd_cases env sid i n hd rand inc cc [] with
        ⟨hne, _⟩ | hf | hf | ⟨share, hf⟩
      · exact absurd hnil hne
      · rw [hf] at hcontra
        simp at hcontra
      · rw [hf] at hcontra
        simp at hcontra
      · rw [hf] at hcontra
        simp at hcontra
    · intro hsum
      rw [hrw]
      by_cases hv : DirtyCoreKeyShare.validate env n
        { i := i,
          shared_public_key := ((inc.round2.iter_including_me i
            (mkMyDecommitment env hd rand)).map fun d => d.X).sum,
          public_shares := (inc.round2.iter_including_me i
            (mkMyDecommitment env hd rand)).map fun d => d.X,
          chain_code := cc, x := rand.x } = true
      · right
        exact ⟨{
            i := i,
            shared_public_key := ((inc.round2.iter_including_me i
              (mkMyDecommitment env hd rand)).map fun d => d.X).sum,
            public_shares := (inc.round2.iter_including_me i
              (mkMyDecommitment env hd rand)).map fun d => d.X,
            chain_code := cc,
            x := rand.x },
          by simp [keygenFinish, hnil, hsum, hv]⟩
      · left
        simp [keygenFinish, hnil, hsum, hv]

/-- Witness for claim C3 at a concrete input: party 1's Schnorr proof does not
verify and party 0 aborts blaming exactly party 1. -/
theorem invalid_schnorr_proof_check_witness :
    (run_keygen env₀ sid₀ 0 2 false false rand₀ incBadProof).2 =
      Except.error (KeygenError.aborted
        (KeygenAborted.InvalidSchnorrProof [(1, 13)])) := by
  have h := (invalid_schnorr_proof_check env₀ sid₀ 0 2 false false rand₀ incBadProof
    (Or.inl rfl) (by decide) (by decide) (by decide) (by decide)).2.1 (by decide)
  rw [show schnorrBlame env₀ sid₀ (computedRid env₀ 0 false rand₀ incBadProof)
    incBadProof.round2 incBadProof.round3 = [(1, 13)] from by decide] at h
  exact h

/-- Claim C2: with reliable broadcast enforced, the driver computes the echo
hash `h_i` over the ordered vector of all `n` round-1 commitments (its own
included), broadcasts it, and returns `KeygenAborted::Round1NotReliable`
listing exactly those peers `j` (with their message ids) whose echoed hash
differs from `h_i`; only if every peer's echo equals `h_i` does it go on to
broadcast its Round2 decommitment. -/
theorem reliability_check (env : Env Point Scalar SchSecret SchCommit SchProof)
    (sid : Bytes) (i n : Nat) (hd : Bool)
    (rand : LocalRand Scalar SchSecret SchCommit)
    (inc : Incoming Point SchCommit SchProof) :
    (∀ j mid, (j, mid) ∈ reliabilityBlame (env.echoHash sid
        (inc.round1.iter_including_me i (mkMyCommitment env sid i hd rand)))
        inc.round1Sync ↔
      ∃ m, (j, mid, m) ∈ inc.round1Sync.msgs ∧
        m.hash ≠ env.echoHash sid (inc.round1.iter_including_me i
          (mkMyCommitment env sid i hd rand)))
    ∧ Msg.ReliabilityCheck ⟨env.echoHash sid (inc.round1.iter_including_me i
        (mkMyCommitment env sid i hd rand))⟩ ∈
      (run_keygen env sid i n true hd rand inc).1
    ∧ mkMyCommitment env sid i hd rand ∈
      inc.round1.iter_including_me i (mkMyCommitment env sid i hd rand)
    ∧ (inc.round1.iter_including_me i (mkMyCommitment env sid i hd rand)).length =
      inc.round1.msgs.length + 1
    ∧ (reliabilityBlame (env.echoHash sid (inc.round1.iter_including_me i
          (mkMyCommitment env sid i hd rand))) inc.round1Sync ≠ [] →
        run_keygen env sid i n true hd rand inc =
          ([Msg.Round1 (mkMyCommitment env sid i hd rand),
            Msg.ReliabilityCheck ⟨env.echoHash sid (inc.round1.iter_including_me i
              (mkMyCommitment env sid i hd rand))⟩],
           Except.error (KeygenError.aborted (KeygenAborted.Round1NotReliable
             (reliabilityBlame (env.echoHash sid (inc.round1.iter_including_me i
               (mkMyCommitment env sid i hd rand))) inc.round1Sync)))))
    ∧ (reliabilityBlame (env.echoHash sid (inc.round1.iter_including_me i
          (mkMyCommitment env sid i hd rand))) inc.round1Sync = [] →
        Msg.Round2 (mkMyDecommitment env hd rand) ∈
          (run_keygen env sid i n true hd rand inc).1
        ∧ ∀ l, (run_keygen env sid i n true hd rand inc).2 ≠
            Except.error (KeygenError.aborted (KeygenAborted.Round1NotReliable l))) := by
  have hout : ∀ hblame : reliabilityBlame (env.echoHash sid
      (inc.round1.iter_including_me i (mkMyCommitment env sid i hd rand)))
      inc.round1Sync = [],
      run_keygen env sid i n true hd rand inc =
        keygenRound3 env sid i n hd rand inc
          [Msg.Round1 (mkMyCommitment env sid i hd rand),
           Msg.ReliabilityCheck ⟨env.echoHash sid (inc.round1.iter_including_me i
             (mkMyCommitment env sid i hd rand))⟩] := by
    intro hblame
    rcases run_keygen_cases env sid i n true hd rand inc with
      ⟨_, hne, _⟩ | ⟨_, hrun⟩
    · exact absurd hblame hne
    · rw [hrun]
      simp
  refine ⟨?_, ?_, iter_including_me_self_mem _ _ _,
    iter_including_me_length _ _ _, ?_, ?_⟩
  · intro j mid
    exact mem_reliabilityBlame _ inc.round1Sync j mid
  · by_cases hblame : reliabilityBlame (env.echoHash sid
        (inc.round1.iter_including_me i (mkMyCommitment env sid i hd rand)))
        inc.round1Sync = []
    · rw [hout hblame]
      obtain ⟨rest, h⟩ := keygenRound3_fst_extends env sid i n hd rand inc
        [Msg.Round1 (mkMyCommitment env sid i hd rand),
         Msg.ReliabilityCheck ⟨env.echoHash sid (inc.round1.iter_including_me i
           (mkMyCommitment env sid i hd rand))⟩]
      rw [h]
      simp
    · rcases run_keygen_cases env sid i n true hd rand inc with
        ⟨_, _, hrun⟩ | ⟨hpass, _⟩
      · rw [hrun]
        simp
      · rcases hpass with hp | hp
        · exact Bool.noConfusion hp
        · exact absurd hp hblame
  · intro hne
    rcases run_keygen_cases env sid i n true hd rand inc with
      ⟨_, _, hrun⟩ | ⟨hpass, _⟩
    · exact hrun
    · rcases hpass with hp | hp
      · exact Bool.noConfusion hp
      · exact absurd hp hne
  · intro hblame
    constructor
    · rw [hout hblame]
      obtain ⟨rest, h⟩ := keygenRound3_fst_extends env sid i n hd rand inc
        [Msg.Round1 (mkMyCommitment env sid i hd rand),
         Msg.ReliabilityCheck ⟨env.echoHash sid (inc.round1.iter_including_me i
           (mkMyCommitment env sid i hd rand))⟩]
      rw [h]
      simp
    · intro l hcontra
      rw [hout hblame] at hcontra
      rcases keygenRound3_snd_aborted_forms env sid i n hd rand inc _ _ hcontra with
        ⟨l', h⟩ | ⟨l', h⟩ | ⟨l', h⟩ <;> simp at h

/-- Witness for claim C2 at a concrete input: party 1 echoes a different hash
and party 0 aborts with `Round1NotReliable [(1, 11)]`, having sent only its
Round1 commitment and its echo hash. -/
theorem reliability_check_witness :
    run_keygen env₀ sid₀ 0 2 true false rand₀ incEcho =
      ([Msg.Round1 com₀, Msg.ReliabilityCheck ⟨h₀⟩],
        Except.error (KeygenError.aborted
          (KeygenAborted.Round1NotReliable [(1, 11)]))) := by
  have h := (reliability_check env₀ sid₀ 0 2 false rand₀ incEcho).2.2.2.2.1 (by decide)
  rw [show reliabilityBlame (env₀.echoHash sid₀ (incEcho.round1.iter_including_me 0
    (mkMyCommitment env₀ sid₀ 0 false rand₀))) incEcho.round1Sync = [(1, 11)]
    from by decide] at h
  exact h

/-- Claim C4: the aggregate randomness identifier `rid` equals the bitwise
XOR of all `n` parties' rid contributions, the local party's own `rid_i`
included, starting from the all-zero array — byte `p` of `rid` is the XOR of
byte `p` over all round-2 decommitments. -/
theorem rid_is_xor_of_all (env : Env Point Scalar SchSecret SchCommit SchProof)
    (i : Nat) (hd : Bool) (rand : LocalRand Scalar SchSecret SchCommit)
    (inc : Incoming Point SchCommit SchProof)
    (hlen : ∀ d ∈ inc.round2.iter_including_me i (mkMyDecommitment env hd rand),
      d.rid.length = env.ridLen) :
    computedRid env i hd rand inc =
      specXorAll env.ridLen ((inc.round2.iter_including_me i
        (mkMyDecommitment env hd rand)).map fun d => d.rid)
    ∧ rand.rid ∈ (inc.round2.iter_including_me i
        (mkMyDecommitment env hd rand)).map fun d => d.rid := by
  constructor
  · unfold computedRid
    apply foldl_xor_array_eq_specXorAll
    intro r hr
    rw [List.mem_map] at hr
    obtain ⟨d, hdm, hdr⟩ := hr
    rw [← hdr]
    exact hlen d hdm
  · exact List.mem_map.mpr
      ⟨mkMyDecommitment env hd rand, iter_including_me_self_mem _ _ _, rfl⟩

/-- Witness for claim C4 at a concrete input. -/
theorem rid_is_xor_of_all_witness :
    computedRid env₀ 0 false rand₀ inc₀ =
      specXorAll env₀.ridLen ((inc₀.round2.iter_including_me 0
        (mkMyDecommitment env₀ false rand₀)).map fun d => d.rid)
    ∧ rand₀.rid ∈ (inc₀.round2.iter_including_me 0
        (mkMyDecommitment env₀ false rand₀)).map fun d => d.rid :=
  rid_is_xor_of_all env₀ 0 false rand₀ inc₀ (by decide)

/-- Claim C5: on successful completion the returned key share's shared public
key equals the elliptic-curve sum of all `n` public shares `X_j` (the local
`X_i` included) and its public-shares vector is exactly those `n` points; if
the sum is the identity the driver instead returns `Bug::ZeroPk` and no
share. -/
theorem shared_public_key_is_sum (env : Env Point Scalar SchSecret SchCommit SchProof)
    (sid : Bytes) (i n : Nat) (reliable hd : Bool)
    (rand : LocalRand Scalar SchSecret SchCommit)
    (inc : Incoming Point SchCommit SchProof)
    (hpass : reliable = false ∨
      reliabilityBlame (env.echoHash sid (inc.round1.iter_including_me i
        (mkMyCommitment env sid i hd rand))) inc.round1Sync = [])
    (hdecom : decommitmentBlame env sid inc.round1 inc.round2 = [])
    (hcc : hd = true → missingChainCodeBlame inc.round2 = [])
    (hsch : schnorrBlame env sid (computedRid env i hd rand inc)
      inc.round2 inc.round3 = [])
    (hcount : inc.round2.msgs.length + 1 = n) :
    (∀ share, (run_keygen env sid i n reliable hd rand inc).2 = Except.ok share →
        share.shared_public_key = share.public_shares.sum
        ∧ share.public_shares = (inc.round2.iter_including_me i
            (mkMyDecommitment env hd rand)).map (fun d => d.X)
        ∧ share.public_shares.length = n
        ∧ share.shared_public_key ≠ 0)
    ∧ (((inc.round2.iter_including_me i
          (mkMyDecommitment env hd rand)).map fun d => d.X).sum = 0 →
        (run_keygen env sid i n reliable hd rand inc).2 =
          Except.error (KeygenError.bug Bug.ZeroPk)) := by
  have hchain : ∃ cc, (keygenChainCode env sid i n hd rand inc []).2 =
      (keygenFinish env sid i n hd rand inc cc []).2 := by
    rcases keygenChainCode_snd_cases env sid i n hd rand inc [] with
      ⟨hhd, hne, _⟩ | ⟨hhd, hbl, b, hres, _⟩ | ⟨cc, h⟩
    · exact absurd (hcc hhd) hne
    · exfalso
      subst hhd
      obtain ⟨cc, hok⟩ := chainCodeResult_isOk_of_no_missing env i rand inc.round2 hbl
      rw [hok] at hres
      exact Except.noConfusion hres
    · exact ⟨cc, h⟩
  obtain ⟨cc, hfin⟩ := hchain
  have hrw : (run_keygen env sid i n reliable hd rand inc).2 =
      (keygenFinish env sid i n hd rand inc cc []).2 := by
    rw [run_keygen_snd_eq env sid i n reliable hd rand inc hpass,
      keygenRound3_snd_eq env sid i n hd rand inc [] hdecom, hfin]
  constructor
  · intro share hok
    rw [hrw] at hok
    obtain ⟨hshare, _, hnz⟩ := keygenFinish_ok_inv env sid i n hd rand inc cc [] share hok
    subst hshare
    refine ⟨rfl, rfl, ?_, hnz⟩
    simp only [List.length_map]
    rw [iter_including_me_length]
    exact hcount
  · intro hz
    rw [hrw]
    simp [keygenFinish, hsch, hz]

/-- Witness for claim C5 at a concrete input: with `x_0 = -5` and `x_1 = 5`
the public shares sum to the identity and the driver returns `Bug::ZeroPk`. -/
theorem shared_public_key_is_sum_witness :
    (run_keygen env₀ sid₀ 0 2 false false randZ inc₀).2 =
      Except.error (KeygenError.bug Bug.ZeroPk) :=
  (shared_public_key_is_sum env₀ sid₀ 0 2 false false randZ inc₀
    (Or.inl rfl) (by decide) (by decide) (by decide) (by decide)).2 (by decide)

/-- Claim C6: with hierarchical derivation on, the driver checks every peer's
round-2 decommitment for a present chain code; if any is absent it returns
`KeygenAborted::MissingChainCode` listing exactly those peers, and otherwise
the resulting chain code equals the bitwise XOR of all `n` parties' chain
codes, the local party's included; with it off, the returned chain code is
absent and no such abort occurs. -/
theorem chain_code_aggregation (env : Env Point Scalar SchSecret SchCommit SchProof)
    (sid : Bytes) (i n : Nat) (reliable hd : Bool)
    (rand : LocalRand Scalar SchSecret SchCommit)
    (inc : Incoming Point SchCommit SchProof)
    (hpass : reliable = false ∨
      reliabilityBlame (env.echoHash sid (inc.round1.iter_including_me i
        (mkMyCommitment env sid i hd rand))) inc.round1Sync = [])
    (hdecom : decommitmentBlame env sid inc.round1 inc.round2 = [])
    (hcclen : ∀ t ∈ inc.round2.msgs, ∀ c, t.2.2.chain_code = some c → c.length = 32)
    (hlocal : rand.chainCode.length = 32) :
    (∀ j mid, (j, mid) ∈ missingChainCodeBlame inc.round2 ↔
       ∃ d, (j, mid, d) ∈ inc.round2.msgs ∧ d.chain_code = none)
    ∧ (hd = true → missingChainCodeBlame inc.round2 ≠ [] →
        (run_keygen env sid i n reliable hd rand inc).2 =
          Except.error (KeygenError.aborted (KeygenAborted.MissingChainCode
            (missingChainCodeBlame inc.round2))))
    ∧ (hd = true → ∀ share,
        (run_keygen env sid i n reliable hd rand inc).2 = Except.ok share →
          share.chain_code = some (specXorAll 32
            ((inc.round2.iter_including_me i (mkMyDecommitment env hd rand)).map
              (fun d => d.chain_code.getD []))))
    ∧ (hd = false →
        (∀ share, (run_keygen env sid i n reliable hd rand inc).2 = Except.ok share →
          share.chain_code = none)
        ∧ ∀ l, (run_keygen env sid i n reliable hd rand inc).2 ≠
            Except.error (KeygenError.aborted (KeygenAborted.MissingChainCode l))) := by
  refine ⟨?_, ?_, ?_, ?_⟩
  · intro j mid
    constructor
    · intro hmem
      obtain ⟨m, hm1, hm2⟩ := (mem_collect_simple_blame inc.round2 _ j mid).mp
        (by simpa [missingChainCodeBlame] using hmem)
      exact ⟨m, hm1, Option.isNone_iff_eq_none.mp hm2⟩
    · rintro ⟨d, hd1, hd2⟩
      have hm : (j, mid) ∈ collect_simple_blame inc.round2
          fun decom => decom.chain_code.isNone :=
        (mem_collect_simple_blame inc.round2 _ j mid).mpr ⟨d, hd1, by simp [hd2]⟩
      simpa [missingChainCodeBlame] using hm
  · intro hhd hne
    subst hhd
    rw [run_keygen_snd_eq env sid i n reliable true rand inc hpass,
      keygenRound3_snd_eq env sid i n true rand inc [] hdecom]
    simp [keygenChainCode, hne]
  · intro hhd share hok
    subst hhd
    rw [run_keygen_snd_eq env sid i n reliable true rand inc hpass,
      keygenRound3_snd_eq env sid i n true rand inc [] hdecom] at hok
    by_cases hbm : missingChainCodeBlame inc.round2 = []
    · have hall := all_chain_code_some_of_no_missing env i rand inc.round2 hbm
      have hokcc := chainCodeResult_ok
        (inc.round2.iter_including_me i (mkMyDecommitment env true rand)) hall
      have hrw2 : (keygenChainCode env sid i n true rand inc []).2 =
          (keygenFinish env sid i n true rand inc
            (some (((inc.round2.iter_including_me i
              (mkMyDecommitment env true rand)).map
                fun d => d.chain_code.getD []).foldl xor_array
              (List.replicate 32 0))) []).2 := by
        simp [keygenChainCode, hbm, hokcc]
      rw [hrw2] at hok
      obtain ⟨hshare, _, _⟩ := keygenFinish_ok_inv env sid i n true rand inc _ [] share hok
      rw [hshare]
      have hxor : (((inc.round2.iter_including_me i
          (mkMyDecommitment env true rand)).map
            fun d => d.chain_code.getD []).foldl xor_array (List.replicate 32 0)) =
          specXorAll 32 ((inc.round2.iter_including_me i
            (mkMyDecommitment env true rand)).map fun d => d.chain_code.getD []) := by
        apply foldl_xor_array_eq_specXorAll
        intro c hc
        rw [List.mem_map] at hc
        obtain ⟨d, hdm, hdc⟩ := hc
        obtain ⟨cv, hcv⟩ := Option.isSome_iff_exists.mp (hall d hdm)
        rcases mem_iter_including_me inc.round2 i (mkMyDecommitment env true rand)
          d hdm with hmy | ⟨j, mid, hmem⟩
        · rw [← hdc, hmy]
          simpa [mkMyDecommitment] using hlocal
        · rw [← hdc, hcv]
          simpa using hcclen (j, mid, d) hmem cv hcv
      simp only [hxor]
    · rw [show (keygenChainCode env sid i n true rand inc []).2 =
        Except.error (KeygenError.aborted (KeygenAborted.MissingChainCode
          (missingChainCodeBlame inc.round2))) from by simp [keygenChainCode, hbm]] at hok
      exact Except.noConfusion hok
  · intro hhd
    subst hhd
    have hrw3 : (run_keygen env sid i n reliable false rand inc).2 =
        (keygenFinish env sid i n false rand inc none []).2 := by
      rw [run_keygen_snd_eq env sid i n reliable false rand inc hpass,
        keygenRound3_snd_eq env sid i n false rand inc [] hdecom]
      simp [keygenChainCode]
    constructor
    · intro share hok
      rw [hrw3] at hok
      obtain ⟨hshare, _, _⟩ :=
        keygenFinish_ok_inv env sid i n false rand inc none [] share hok
      rw [hshare]
    · intro l hcontra
      rw [hrw3] at hcontra
      rcases keygenFinish_snd_cases env sid i n false rand inc none [] with
        ⟨_, hf⟩ | hf | hf | ⟨share, hf⟩ <;> rw [hf] at hcontra <;> simp at hcontra

/-- Witness for claim C6 at a concrete input: hierarchical derivation is on
but party 1 commits to and reveals a chain-code-free decommitment, so party 0
aborts with `MissingChainCode [(1, 12)]`. -/
theorem chain_code_aggregation_witness :
    (run_keygen env₀ sid₀ 0 2 false true rand₀ incHdMissing).2 =
      Except.error (KeygenError.aborted
        (KeygenAborted.MissingChainCode [(1, 12)])) := by
  have h := (chain_code_aggregation env₀ sid₀ 0 2 false true rand₀ incHdMissing
    (Or.inl rfl) (by decide) (by decide) (by decide)).2.1 rfl (by decide)
  rw [show missingChainCodeBlame incHdMissing.round2 = [(1, 12)] from by decide] at h
  exact h

/-- Witness for claim C9 at a concrete input: an honest hd-enabled run, whose
result is not the `NoChainCode` bug. -/
theorem no_chain_code_bug_unreachable_witness :
    (run_keygen env₀ sid₀ 0 2 false true rand₀ incHd).2 ≠
      Except.error (KeygenError.bug Bug.NoChainCode) :=
  no_chain_code_bug_unreachable env₀ sid₀ 0 2 false true rand₀ incHd

end Cggmp21
